import Mathlib

/-!
Verification development for the AMP request processor
(`src/amp_processor.rs`): a shallow embedding of its pure data
transformations (brand sanitization, system/tool body rewriting,
metadata injection, session-identifier derivation, protocol
classification, path rewriting, web-search query selection, SSRF URL
validation, and size-limited response reading), together with theorems
about the specified behavior.

Strings are modelled as their character sequences; Rust byte values are
modelled as `Nat` (always < 256 in the source). Word boundaries of the
brand-sanitizing regex are modelled over ASCII word characters
(`[0-9A-Za-z_]`), matching the source's behavior on ASCII text.
-/

namespace Amp

/-! ## String helpers (character-list based, kernel-computable) -/

/-- Word character for the regex word boundary: ASCII alphanumeric or underscore. -/
def isWordChar (c : Char) : Bool := c.isAlphanum || c == '_'

/-- Lowercasing of a string, character by character (ASCII, as used for the
path and model comparisons in the source). -/
def strToLower (s : String) : String := ⟨s.data.map Char.toLower⟩

/-- Does `hay` contain `pat` as a contiguous substring (Rust `str::contains`)? -/
def hasInfixChars (pat : List Char) : List Char → Bool
  | [] => pat.isEmpty
  | c :: t => pat.isPrefixOf (c :: t) || hasInfixChars pat t

/-- Rust `str::contains`. -/
def strContains (s pat : String) : Bool := hasInfixChars pat.data s.data

/-- Rust `str::starts_with`. -/
def strHasPre (s pat : String) : Bool := pat.data.isPrefixOf s.data

/-- Rust `str::ends_with`. -/
def strEndsWith (s pat : String) : Bool := pat.data.isSuffixOf s.data

/-- Rust `str::find`: index of the first occurrence of `pat`, if any. -/
def findSubChars (pat : List Char) : List Char → Option Nat
  | [] => if pat.isEmpty then some 0 else none
  | c :: t => if pat.isPrefixOf (c :: t) then some 0 else (findSubChars pat t).map (· + 1)

/-- Rust `str::find` on strings. -/
def strFind (s pat : String) : Option Nat := findSubChars pat.data s.data

/-- Substring from character index `n` to the end (Rust `&s[n..]`). -/
def strDrop (s : String) (n : Nat) : String := ⟨s.data.drop n⟩

/-- Rust `Vec::join` of strings with a separator. -/
def joinSep (sep : String) : List String → String
  | [] => ""
  | [x] => x
  | x :: y :: t => x ++ sep ++ joinSep sep (y :: t)

/-! ## JSON value model

`serde_json::Value` with objects as insertion-ordered association lists
(the source relies on order-preserving maps to control field order).
Numbers are modelled as integers; none of the claims depend on float
values. -/

inductive Json where
  | null : Json
  | bool (b : Bool) : Json
  | num (n : Int) : Json
  | str (s : String) : Json
  | arr (xs : List Json) : Json
  | obj (fields : List (String × Json)) : Json

/-- Lookup in an association list (first binding of the key). -/
def assocFind (fs : List (String × Json)) (k : String) : Option Json :=
  match fs with
  | [] => none
  | (k2, v) :: t => if k2 = k then some v else assocFind t k

/-- Key-membership test (`Map::contains_key`). -/
def assocHas (fs : List (String × Json)) (k : String) : Bool :=
  (assocFind fs k).isSome

/-- Replace the value bound to `k` in place, keeping the position of the key
(the in-place mutation pattern of `get_mut` / insertion over an existing key
of an order-preserving map). -/
def assocSet (fs : List (String × Json)) (k : String) (v : Json) : List (String × Json) :=
  match fs with
  | [] => []
  | (k2, w) :: t => if k2 = k then (k2, v) :: t else (k2, w) :: assocSet t k v

/-- Order-preserving map insertion: replace in place when the key exists,
append at the end otherwise. -/
def mapInsert (fs : List (String × Json)) (k : String) (v : Json) : List (String × Json) :=
  if assocHas fs k then assocSet fs k v else fs ++ [(k, v)]

/-- `Value::get` on an object; `None` for non-objects. -/
def Json.get (j : Json) (k : String) : Option Json :=
  match j with
  | .obj fs => assocFind fs k
  | _ => none

/-- `Value::index` (`json["k"]`): missing keys and non-objects give `Null`. -/
def Json.index (j : Json) (k : String) : Json := (j.get k).getD .null

/-- `Value::as_str`. -/
def Json.asStr : Json → Option String
  | .str s => some s
  | _ => none

/-- `Value::as_array`. -/
def Json.asArr : Json → Option (List Json)
  | .arr xs => some xs
  | _ => none

/-- `Value::as_object`. -/
def Json.asObj : Json → Option (List (String × Json))
  | .obj fs => some fs
  | _ => none

/-- `Value::as_i64`. -/
def Json.asInt : Json → Option Int
  | .num n => some n
  | _ => none

/-- Apply `f` to the value at key `k` of an object, in place; leave the value
unchanged when the key is absent or the value is not an object (the
`get_mut`-and-mutate pattern). -/
def Json.objUpdate (j : Json) (k : String) (f : Json → Json) : Json :=
  match j with
  | .obj fs =>
    match assocFind fs k with
    | some v => .obj (assocSet fs k (f v))
    | none => .obj fs
  | other => other

/-! ## Brand sanitization (`sanitize_brand_text`)

The source replaces every whole-word, case-insensitive occurrence of
`opencode`, `amp-code`, `ampcode` or `amp` with `Claude Code`
(regex `(?i)\b(?:opencode|amp(?:-?code)?)\b` with leftmost-first
alternation semantics, so the attempt order at one position is
`opencode`, `amp-code`, `ampcode`, `amp`). -/

/-- Match a fixed lowercase token case-insensitively at the head of the input,
returning the rest of the input after the token. -/
def matchTok : List Char → List Char → Option (List Char)
  | [], l => some l
  | _ :: _, [] => none
  | t :: ts, c :: cs => if c.toLower = t then matchTok ts cs else none

/-- Word boundary after a match: end of input or a non-word character.
Every token ends in a word character, so the trailing `\b` reduces to this. -/
def boundaryAfter : List Char → Bool
  | [] => true
  | c :: _ => !isWordChar c

/-- Does the token match at the head of the input, followed by a word
boundary? -/
def tryTok (tok l : List Char) : Bool :=
  match matchTok tok l with
  | some rest => boundaryAfter rest
  | none => false

/-- Leftmost-first match attempt of the brand alternation at the head of
the input; returns the length of the match. -/
def matchBrandAt (l : List Char) : Option Nat :=
  if tryTok "opencode".data l then some 8
  else if tryTok "amp-code".data l then some 8
  else if tryTok "ampcode".data l then some 7
  else if tryTok "amp".data l then some 3
  else none

/-- Scanner for `Regex::replace_all`: `prevW` records whether the previous
character of the original input is a word character (so a leading `\b`
holds exactly when `prevW = false`, since every token starts with a word
character). A match of length `n` starting at `c` continues after the match,
i.e. at `cs.drop (n - 1)`; every token ends in a word character, so the
scanner continues with `prevW = true`. -/
def sanChars : List Char → Bool → List Char
  | [], _ => []
  | c :: cs, prevW =>
    if prevW then c :: sanChars cs (isWordChar c)
    else
      match matchBrandAt (c :: cs) with
      | some n => "Claude Code".data ++ sanChars (cs.drop (n - 1)) true
      | none => c :: sanChars cs (isWordChar c)
termination_by l _ => l.length
decreasing_by
  all_goals simp
  omega

/-- Rust `sanitize_brand_text`: whole-word case-insensitive brand terms
replaced by `Claude Code`. -/
def sanitize_brand_text (s : String) : String := ⟨sanChars s.data false⟩

/-! ## System / tools / messages rewriting (`add_tool_prefix`) -/

/-- Fixed identity preamble of the source (`CLAUDE_CODE_PREAMBLE`). -/
def CLAUDE_CODE_PREAMBLE : String := "You are Claude Code, Anthropic\x27s official CLI for Claude."

/-- Canonical `cache_control` value installed by `normalize_cache_control`. -/
def CACHE_CONTROL_VALUE : Json := .obj [("type", .str "ephemeral"), ("ttl", .str "5m")]

/-- Rust `normalize_cache_control`: on an object that has a `cache_control`
key, overwrite it with the canonical value; all other values are unchanged. -/
def normalize_cache_control (item : Json) : Json :=
  match item with
  | .obj fs => if assocHas fs "cache_control" then .obj (mapInsert fs "cache_control" CACHE_CONTROL_VALUE) else .obj fs
  | other => other

/-- The preamble system block `{type: text, text: CLAUDE_CODE_PREAMBLE}`. -/
def preambleBlock : Json := .obj [("type", .str "text"), ("text", .str CLAUDE_CODE_PREAMBLE)]

/-- Marker prepended to tool names (`TOOL_PREFIX` in the source). -/
def TOOL_MARK : String := "mcp_"

/-- One system-array item: normalize `cache_control`; when `type == "text"`
and `text` is a string, sanitize the text. -/
def sanitizeSystemItem (it : Json) : Json :=
  let it1 := normalize_cache_control it
  if (it1.get "type").bind Json.asStr = some "text" then
    match (it1.get "text").bind Json.asStr with
    | some t => it1.objUpdate "text" (fun _ => .str (sanitize_brand_text t))
    | none => it1
  else it1

/-- Is the first system-array item already the preamble block (checked after
sanitization, as in the source)? -/
def headIsPreamble (items : List Json) : Bool :=
  (items.head?.bind (fun v => (v.get "type").bind Json.asStr) == some "text")
    && (items.head?.bind (fun v => (v.get "text").bind Json.asStr) == some CLAUDE_CODE_PREAMBLE)

/-- Transformation of an existing `system` value: array form sanitizes each
item and prepends the preamble block unless already first; string form
sanitizes and prepends the preamble plus a newline unless already a prefix;
other forms are untouched. -/
def transformSystem (sys : Json) : Json :=
  match sys with
  | .arr items =>
    let items2 := items.map sanitizeSystemItem
    if headIsPreamble items2 then .arr items2 else .arr (preambleBlock :: items2)
  | .str s =>
    let cleaned := sanitize_brand_text s
    if strHasPre cleaned CLAUDE_CODE_PREAMBLE then .str cleaned
    else .str (CLAUDE_CODE_PREAMBLE ++ "\n" ++ cleaned)
  | other => other

/-- Step 0 of `add_tool_prefix`: rewrite the `system` field when present;
synthesize `system = [preambleBlock]` when absent. Assigning into a missing
key only succeeds on objects (and on `Null`, which becomes an object);
on any other value the source would panic, modelled as `none`. -/
def systemStep (j : Json) : Option Json :=
  match j with
  | .obj fs =>
    match assocFind fs "system" with
    | some sys => some (.obj (assocSet fs "system" (transformSystem sys)))
    | none => some (.obj (fs ++ [("system", .arr [preambleBlock])]))
  | .null => some (.obj [("system", .arr [preambleBlock])])
  | _ => none

/-- One entry of the `tools` array: normalize `cache_control` and prepend
the marker to a string `name` that does not already carry it. -/
def fixToolItem (t : Json) : Json :=
  let t1 := normalize_cache_control t
  match (t1.get "name").bind Json.asStr with
  | some n => if strHasPre n TOOL_MARK then t1 else t1.objUpdate "name" (fun _ => .str (TOOL_MARK ++ n))
  | none => t1

/-- Rewrite of the `tools` value: every entry of an array is fixed; other
shapes are untouched (`as_array_mut` fails). -/
def toolsArrayFix (v : Json) : Json :=
  match v with
  | .arr ts => .arr (ts.map fixToolItem)
  | other => other

/-- Step 1 of `add_tool_prefix`: rewrite every entry of a `tools` array. -/
def toolsStep (j : Json) : Json := j.objUpdate "tools" toolsArrayFix

/-- One message-content item: normalize `cache_control`; for
`type == "tool_use"` items, prepend the marker to a string `name` that does
not already carry it. -/
def fixContentItem (it : Json) : Json :=
  let it1 := normalize_cache_control it
  if (it1.get "type").bind Json.asStr = some "tool_use" then
    match (it1.get "name").bind Json.asStr with
    | some n => if strHasPre n TOOL_MARK then it1 else it1.objUpdate "name" (fun _ => .str (TOOL_MARK ++ n))
    | none => it1
  else it1

/-- Rewrite of a message `content` value: items of an array are fixed;
other shapes are untouched. -/
def contentArrayFix (c : Json) : Json :=
  match c with
  | .arr items => .arr (items.map fixContentItem)
  | other => other

/-- One message: rewrite the items of an array-valued `content` field. -/
def fixMessage (m : Json) : Json := m.objUpdate "content" contentArrayFix

/-- Rewrite of the `messages` value: every message of an array is fixed;
other shapes are untouched. -/
def messagesArrayFix (v : Json) : Json :=
  match v with
  | .arr ms => .arr (ms.map fixMessage)
  | other => other

/-- Step 2 of `add_tool_prefix`: rewrite every entry of a `messages` array. -/
def messagesStep (j : Json) : Json := j.objUpdate "messages" messagesArrayFix

/-- Does the declared model name contain `haiku` (case-insensitive)? -/
def modelIsHaiku (j : Json) : Bool :=
  match (j.get "model").bind Json.asStr with
  | some m => strContains (strToLower m) "haiku"
  | none => false

/-- Rust `add_tool_prefix` on a parsed JSON body: haiku models pass through
unchanged; otherwise the system, tools and messages steps are applied in
order. `none` models the panic of assigning `json["system"]` on a
non-object, non-null value. -/
def add_tool_prefix_fn (j : Json) : Option Json :=
  if modelIsHaiku j then some j
  else (systemStep j).map (fun j1 => messagesStep (toolsStep j1))

/-! ## SHA-256 (the `sha2` crate's function, FIPS 180-4), over byte lists -/

/-- Arithmetic modulus for 32-bit words. -/
def M32 : Nat := 4294967296

/-- 32-bit addition. -/
def add32 (a b : Nat) : Nat := (a + b) % M32

/-- 32-bit right rotation (inputs are kept below `M32`). -/
def rotr32 (n x : Nat) : Nat := x / 2 ^ n + x % 2 ^ n * 2 ^ (32 - n)

/-- 32-bit complement. -/
def not32 (x : Nat) : Nat := x ^^^ (M32 - 1)

/-- SHA-256 `Ch`. -/
def shaCh (x y z : Nat) : Nat := (x &&& y) ^^^ (not32 x &&& z)

/-- SHA-256 `Maj`. -/
def shaMaj (x y z : Nat) : Nat := (x &&& y) ^^^ (x &&& z) ^^^ (y &&& z)

/-- SHA-256 `Σ0`. -/
def bigSigma0 (x : Nat) : Nat := rotr32 2 x ^^^ rotr32 13 x ^^^ rotr32 22 x

/-- SHA-256 `Σ1`. -/
def bigSigma1 (x : Nat) : Nat := rotr32 6 x ^^^ rotr32 11 x ^^^ rotr32 25 x

/-- SHA-256 `σ0`. -/
def smallSigma0 (x : Nat) : Nat := rotr32 7 x ^^^ rotr32 18 x ^^^ x / 2 ^ 3

/-- SHA-256 `σ1`. -/
def smallSigma1 (x : Nat) : Nat := rotr32 17 x ^^^ rotr32 19 x ^^^ x / 2 ^ 10

/-- SHA-256 round constants (FIPS 180-4, written in decimal). -/
def shaK : List Nat :=
  [1116352408, 1899447441, 3049323471, 3921009573, 961987163,
   1508970993, 2453635748, 2870763221, 3624381080, 310598401,
   607225278, 1426881987, 1925078388, 2162078206, 2614888103,
   3248222580, 3835390401, 4022224774, 264347078, 604807628,
   770255983, 1249150122, 1555081692, 1996064986, 2554220882,
   2821834349, 2952996808, 3210313671, 3336571891, 3584528711,
   113926993, 338241895, 666307205, 773529912, 1294757372,
   1396182291, 1695183700, 1986661051, 2177026350, 2456956037,
   2730485921, 2820302411, 3259730800, 3345764771, 3516065817,
   3600352804, 4094571909, 275423344, 430227734, 506948616,
   659060556, 883997877, 958139571, 1322822218, 1537002063,
   1747873779, 1955562222, 2024104815, 2227730452, 2361852424,
   2428436474, 2756734187, 3204031479, 3329325298]

/-- SHA-256 working state of eight 32-bit words. -/
structure Sha8 where
  a : Nat
  b : Nat
  c : Nat
  d : Nat
  e : Nat
  f : Nat
  g : Nat
  h : Nat

/-- SHA-256 initial hash value (FIPS 180-4, written in decimal). -/
def shaH0 : Sha8 :=
  ⟨1779033703, 3144134277, 1013904242, 2773480762,
   1359893119, 2600822924, 528734635, 1541459225⟩

/-- Big-endian 8-byte encoding of the bit length. -/
def bytesBE8 (n : Nat) : List Nat :=
  [n / 2 ^ 56 % 256, n / 2 ^ 48 % 256, n / 2 ^ 40 % 256, n / 2 ^ 32 % 256,
   n / 2 ^ 24 % 256, n / 2 ^ 16 % 256, n / 2 ^ 8 % 256, n % 256]

/-- SHA-256 message padding: `0x80`, zeros to 56 mod 64, 8-byte bit length. -/
def padMessage (msg : List Nat) : List Nat :=
  let z := (56 + 64 - (msg.length + 1) % 64) % 64
  msg ++ [0x80] ++ List.replicate z 0 ++ bytesBE8 (8 * msg.length)

/-- Split a byte list into 64-byte blocks. -/
def toBlocks (l : List Nat) : List (List Nat) :=
  if l.isEmpty then [] else l.take 64 :: toBlocks (l.drop 64)
termination_by l.length
decreasing_by
  rename_i h
  simp [List.isEmpty_iff] at h
  have hl : 0 < l.length := List.length_pos.mpr h
  simp only [List.length_drop]
  omega

/-- Big-endian 32-bit words of a block. -/
def wordsBE : List Nat → List Nat
  | b0 :: b1 :: b2 :: b3 :: rest => (b0 * 2 ^ 24 + b1 * 2 ^ 16 + b2 * 2 ^ 8 + b3) :: wordsBE rest
  | _ => []

/-- Extend the 16-word schedule by `n` additional words. -/
def extendSchedule (w : List Nat) : Nat → List Nat
  | 0 => w
  | n + 1 =>
    let w2 := extendSchedule w n
    let len := w2.length
    w2 ++ [add32 (add32 (smallSigma1 (w2.getD (len - 2) 0)) (w2.getD (len - 7) 0))
      (add32 (smallSigma0 (w2.getD (len - 15) 0)) (w2.getD (len - 16) 0))]

/-- One SHA-256 compression round for a pair of round constant and
schedule word. -/
def roundFn (st : Sha8) (kw : Nat × Nat) : Sha8 :=
  let t1 := add32 st.h (add32 (bigSigma1 st.e) (add32 (shaCh st.e st.f st.g) (add32 kw.1 kw.2)))
  let t2 := add32 (bigSigma0 st.a) (shaMaj st.a st.b st.c)
  ⟨add32 t1 t2, st.a, st.b, st.c, add32 st.d t1, st.e, st.f, st.g⟩

/-- Compression of one 64-byte block. -/
def processBlock (hs : Sha8) (block : List Nat) : Sha8 :=
  let w := extendSchedule (wordsBE block) 48
  let st := (shaK.zip w).foldl roundFn hs
  ⟨add32 hs.a st.a, add32 hs.b st.b, add32 hs.c st.c, add32 hs.d st.d,
   add32 hs.e st.e, add32 hs.f st.f, add32 hs.g st.g, add32 hs.h st.h⟩

/-- Big-endian bytes of a 32-bit word. -/
def word4 (w : Nat) : List Nat := [w / 2 ^ 24 % 256, w / 2 ^ 16 % 256, w / 2 ^ 8 % 256, w % 256]

/-- SHA-256 digest (32 bytes) of a byte list. -/
def sha256Bytes (msg : List Nat) : List Nat :=
  let s := (toBlocks (padMessage msg)).foldl processBlock shaH0
  word4 s.a ++ word4 s.b ++ word4 s.c ++ word4 s.d ++ word4 s.e ++ word4 s.f ++ word4 s.g ++ word4 s.h

/-- Lowercase hexadecimal digit. -/
def hexChar (n : Nat) : Char := "0123456789abcdef".data.getD n '0'

/-- Two-digit lowercase hexadecimal rendering of one byte
(Rust `{:x}` formatting of a digest renders each byte zero-padded). -/
def hexByte (b : Nat) : List Char := [hexChar (b / 16 % 16), hexChar (b % 16)]

/-- The 64 hexadecimal characters of `format!("{:x}", Sha256 digest)`. -/
def hexDigest (msg : List Nat) : List Char := ((sha256Bytes msg).map hexByte).flatten

/-- UTF-8 encoding of one character (what `hasher.update(&content)` hashes). -/
def utf8EncodeChar (c : Char) : List Nat :=
  let v := c.toNat
  if v < 0x80 then [v]
  else if v < 0x800 then [0xC0 + v / 64, 0x80 + v % 64]
  else if v < 0x10000 then [0xE0 + v / 4096, 0x80 + v / 64 % 64, 0x80 + v % 64]
  else [0xF0 + v / 262144, 0x80 + v / 4096 % 64, 0x80 + v / 64 % 64, 0x80 + v % 64]

/-- UTF-8 bytes of a string. -/
def strToBytes (s : String) : List Nat := (s.data.map utf8EncodeChar).flatten

/-! ## Session identifier (`generate_session_uuid`) -/

/-- Text item extraction inside a multimodal content array: items whose
`type` is `"text"` contribute their string `text`; everything else
contributes nothing. -/
def textItem (it : Json) : Option String :=
  match (it.get "type").bind Json.asStr with
  | some ty => if ty = "text" then (it.get "text").bind Json.asStr else none
  | none => none

/-- Extracted text of one message: string content verbatim; array content
as the concatenation of its text items; other content shapes contribute
nothing. Messages without a `content` key contribute nothing. -/
def extractMsgText (m : Json) : Option String :=
  (m.get "content").bind (fun c =>
    match c.asStr with
    | some s => some s
    | none => c.asArr.map (fun items => joinSep "" (items.filterMap textItem)))

/-- Joined extracted text of the first three messages, `"|"`-separated
(empty when `messages` is not an array). -/
def sessionContent (messages : Json) : String :=
  match messages.asArr with
  | some l => joinSep "|" ((l.take 3).filterMap extractMsgText)
  | none => ""

/-- Rust `generate_session_uuid`. The `freshUuid` parameter stands for the
value of `Uuid::new_v4()`, the only effectful input: it is returned
verbatim when the extracted content is empty and is unused otherwise. -/
def generate_session_uuid (freshUuid : String) (messages : Json) : String :=
  let content := sessionContent messages
  if content = "" then freshUuid
  else
    let hash := hexDigest (strToBytes content)
    ⟨hash.take 8 ++ '-' :: ((hash.drop 8).take 4 ++ '-' :: ((hash.drop 12).take 4
      ++ '-' :: ((hash.drop 16).take 4 ++ '-' :: (hash.drop 20).take 12)))⟩

/-! ## Metadata injection (`inject_metadata_with_order`) -/

/-- Canonical field order of the source (`field_order`). -/
def FIELD_ORDER : List String :=
  ["model", "system", "messages", "tools", "metadata", "max_tokens", "temperature",
   "top_p", "top_k", "thinking", "stream"]

/-- Injection into an existing `metadata` value: non-objects are replaced by
an empty object; `user_id` is appended only when the key is absent. -/
def injMeta (v : Json) (uid : String) : Json :=
  let m := v.asObj.getD []
  if assocHas m "user_id" then .obj m else .obj (m ++ [("user_id", .str uid)])

/-- First loop of `inject_metadata_with_order`: walk the canonical field
order, emitting present fields in that order and synthesizing `metadata`
when absent. -/
def buildCanonical (fs : List (String × Json)) (uid : String) : List String → List (String × Json)
  | [] => []
  | k :: ks =>
    match assocFind fs k with
    | some v => (k, if k = "metadata" then injMeta v uid else v) :: buildCanonical fs uid ks
    | none =>
      if k = "metadata" then ("metadata", .obj [("user_id", .str uid)]) :: buildCanonical fs uid ks
      else buildCanonical fs uid ks

/-- Second loop of `inject_metadata_with_order`: append the original fields
whose keys are not yet present, in their original relative order. -/
def appendUnknowns (acc : List (String × Json)) : List (String × Json) → List (String × Json)
  | [] => acc
  | (k, v) :: rest => if assocHas acc k then appendUnknowns acc rest else appendUnknowns (acc ++ [(k, v)]) rest

/-- Rust `inject_metadata_with_order` on a parsed body; `none` models the
`Err` for non-object bodies. -/
def inject_metadata_with_order (j : Json) (uid : String) : Option Json :=
  match j with
  | .obj fs => some (.obj (appendUnknowns (buildCanonical fs uid FIELD_ORDER) fs))
  | _ => none

/-! ## The ProtocolA (Claude) body pipeline of `process_outgoing_request` -/

/-- Gate of the Claude branch: does the (tool-prefixed) body carry a
non-empty string at `metadata.user_id`? -/
def hasNonEmptyUserId (j : Json) : Bool :=
  match ((j.get "metadata").bind (fun m => m.get "user_id")).bind Json.asStr with
  | some s => !(s == "")
  | none => false

/-- The injected identity string
`user_{fingerprint}_account__session_{uuid}`. -/
def mkUserId (userHash sessionUuid : String) : String :=
  "user_" ++ userHash ++ "_account__session_" ++ sessionUuid

/-- Body portion of the Claude branch of `process_outgoing_request`, for a
JSON body: apply `add_tool_prefix`; keep the result when it carries a
non-empty `metadata.user_id`; otherwise inject the derived identity,
falling back to the un-injected body when injection fails. `userHash`
stands for `generate_user_hash(headers, api_key)` (a SHA-256 hex digest of
credential and user-agent) and `freshUuid` for the random UUID drawn when
the session content is empty. -/
def claudeFinalBody (userHash freshUuid : String) (j : Json) : Option Json :=
  (add_tool_prefix_fn j).map (fun pb =>
    if hasNonEmptyUserId pb then pb
    else
      let uid := mkUserId userHash (generate_session_uuid freshUuid (pb.index "messages"))
      (inject_metadata_with_order pb uid).getD pb)

/-! ## Protocol classification (`detect_api_type`, `detect_by_model`) -/

/-- The closed classification result (`ApiType` in the source;
`ApiTarget` in the specification: `AmpInternal` = InternalPassthrough,
`Claude` = ProtocolA, `Codex` = ProtocolB, `Gemini` = ProtocolC). -/
inductive ApiType where
  | ampInternal : ApiType
  | claude : ApiType
  | codex : ApiType
  | gemini : ApiType
  deriving DecidableEq, Repr

/-- The body bytes as seen by `detect_by_model`'s parsing step: empty,
non-empty but not valid JSON, or parsed to a JSON value. -/
inductive BodyBytes where
  | empty : BodyBytes
  | malformed : BodyBytes
  | parsed (j : Json) : BodyBytes

/-- Rust `detect_by_model`: empty and malformed bodies give no signal;
otherwise the lowercased `model` string selects by substring. -/
def detect_by_model : BodyBytes → Option ApiType
  | .empty => none
  | .malformed => none
  | .parsed j =>
    match (j.get "model").bind Json.asStr with
    | some m =>
      let ml := strToLower m
      if strContains ml "gemini" then some .gemini
      else if strContains ml "claude" then some .claude
      else if strContains ml "gpt" then some .codex
      else none
    | none => none

/-- Rust `detect_api_type`: the ordered rule cascade over lowercased path,
headers, and body. Headers are modelled as the list of (lowercase) header
names present. -/
def detect_api_type (path : String) (headers : List String) (body : BodyBytes) : ApiType :=
  let p := strToLower path
  if strHasPre p "/api/provider/anthropic" then .claude
  else if strHasPre p "/api/provider/openai" then .codex
  else if strHasPre p "/api/provider/google" then .gemini
  else if strHasPre p "/api/" then .ampInternal
  else if strContains p "/messages" && !strContains p "/chat/completions" then .claude
  else if strContains p "/chat/completions" || strContains p "/responses" || strEndsWith p "/completions" then .codex
  else if strContains p "/v1beta" || strContains p ":generatecontent" || strContains p ":streamgeneratecontent" then .gemini
  else if headers.contains "anthropic-version" then .claude
  else (detect_by_model body).getD .claude

/-! ## Upstream path rewriting (`extract_llm_path`) -/

/-- The Gemini publisher path shape. -/
def GEMINI_PUBLISHER_PAT : String := "/v1beta1/publishers/google/models/"

/-- Rust `extract_llm_path`: publisher-shaped Gemini paths are rewritten to
the short form; otherwise the path is cut at the first `/v1beta`, else the
first `/v1`, else passed through. -/
def extract_llm_path (path : String) : String :=
  match strFind path GEMINI_PUBLISHER_PAT with
  | some pos => "/v1beta/models/" ++ strDrop path (pos + 34)
  | none =>
    match strFind path "/v1beta" with
    | some pos => strDrop path pos
    | none =>
      match strFind path "/v1" with
      | some pos => strDrop path pos
      | none => path

/-- Path rewriting as worded by the specification, for comparison with the
source's `extract_llm_path`. -/
def specRewritePath (path : String) : String :=
  if (strFind path GEMINI_PUBLISHER_PAT).isSome then
    "/v1beta/models/" ++ strDrop path ((strFind path GEMINI_PUBLISHER_PAT).getD 0 + GEMINI_PUBLISHER_PAT.data.length)
  else if (strFind path "/v1beta").isSome then strDrop path ((strFind path "/v1beta").getD 0)
  else if (strFind path "/v1").isSome then strDrop path ((strFind path "/v1").getD 0)
  else path

/-! ## Web search query selection (`handle_web_search`) -/

/-- The query list that `handle_web_search` passes to the search providers:
`params.objective` (defaulting to the empty string), the string elements of
`params.searchQueries` (defaulting to the empty list), and the selection
rule of the source. -/
def webSearchObjective (body : Json) : String :=
  (((body.index "params").index "objective").asStr).getD ""

/-- String elements of `params.searchQueries` (non-arrays give the empty
list; non-string elements are filtered out, as `filter_map(as_str)` does). -/
def webSearchQueryList (body : Json) : List String :=
  ((((body.index "params").index "searchQueries").asArr).map
    (fun l => l.filterMap Json.asStr)).getD []

/-- The queries actually issued: `searchQueries` unless it is empty and the
objective is non-empty, in which case the single objective. -/
def webSearchQueries (body : Json) : List String :=
  let sq := webSearchQueryList body
  let objective := webSearchObjective body
  if sq.isEmpty && !(objective == "") then [objective] else sq

/-! ## SSRF URL validation (`validate_url_security`, `is_private_ip`) -/

/-- IPv4 address as four octets (each `< 256` in the source). -/
structure Ipv4 where
  o0 : Nat
  o1 : Nat
  o2 : Nat
  o3 : Nat
  deriving DecidableEq, Repr

/-- IPv6 address as eight 16-bit segments (each `< 65536` in the source). -/
structure Ipv6 where
  s0 : Nat
  s1 : Nat
  s2 : Nat
  s3 : Nat
  s4 : Nat
  s5 : Nat
  s6 : Nat
  s7 : Nat
  deriving DecidableEq, Repr

/-- `std::net::IpAddr`. -/
inductive IpAddr where
  | v4 (a : Ipv4) : IpAddr
  | v6 (a : Ipv6) : IpAddr
  deriving DecidableEq, Repr

/-- Rust `Ipv4Addr::is_loopback`: `127.0.0.0/8`. -/
def v4IsLoopback (i : Ipv4) : Bool := i.o0 == 127

/-- Rust `Ipv4Addr::is_private`: the RFC1918 ranges. -/
def v4IsPrivate (i : Ipv4) : Bool :=
  i.o0 == 10 || (i.o0 == 172 && decide (16 ≤ i.o1) && decide (i.o1 ≤ 31)) || (i.o0 == 192 && i.o1 == 168)

/-- Rust `Ipv4Addr::is_link_local`: `169.254.0.0/16`. -/
def v4IsLinkLocal (i : Ipv4) : Bool := i.o0 == 169 && i.o1 == 254

/-- Rust `Ipv4Addr::is_broadcast`: `255.255.255.255`. -/
def v4IsBroadcast (i : Ipv4) : Bool := i.o0 == 255 && i.o1 == 255 && i.o2 == 255 && i.o3 == 255

/-- Rust `Ipv4Addr::is_unspecified`: `0.0.0.0`. -/
def v4IsUnspecified (i : Ipv4) : Bool := i.o0 == 0 && i.o1 == 0 && i.o2 == 0 && i.o3 == 0

/-- Rust `Ipv4Addr::is_multicast`: `224.0.0.0/4`. -/
def v4IsMulticast (i : Ipv4) : Bool := decide (224 ≤ i.o0) && decide (i.o0 ≤ 239)

/-- Rust `Ipv6Addr::is_loopback`: `::1`. -/
def v6IsLoopback (a : Ipv6) : Bool :=
  a.s0 == 0 && a.s1 == 0 && a.s2 == 0 && a.s3 == 0 && a.s4 == 0 && a.s5 == 0 && a.s6 == 0 && a.s7 == 1

/-- Rust `Ipv6Addr::is_unspecified`: `::`. -/
def v6IsUnspecified (a : Ipv6) : Bool :=
  a.s0 == 0 && a.s1 == 0 && a.s2 == 0 && a.s3 == 0 && a.s4 == 0 && a.s5 == 0 && a.s6 == 0 && a.s7 == 0

/-- Rust `Ipv6Addr::is_multicast`: `(segments()[0] & 0xff00) == 0xff00`. -/
def v6IsMulticast (a : Ipv6) : Bool := (a.s0 &&& 0xff00) == 0xff00

/-- Rust `is_private_ip`: the reserved/private ranges rejected by the guard,
exactly as written in the source (including the `&`-mask forms). -/
def is_private_ip : IpAddr → Bool
  | .v4 i =>
    v4IsLoopback i || v4IsPrivate i || v4IsLinkLocal i || v4IsBroadcast i
      || v4IsUnspecified i || v4IsMulticast i
      || (i.o0 == 100 && (i.o1 &&& 0xc0) == 64)
  | .v6 a =>
    v6IsLoopback a || v6IsUnspecified a || v6IsMulticast a
      || (a.s0 &&& 0xfe00) == 0xfc00 || (a.s0 &&& 0xffc0) == 0xfe80

/-- Host of a parsed URL: a literal IP (when `host.parse::<IpAddr>()`
succeeds) or a domain name. -/
inductive UrlHost where
  | ip (a : IpAddr) : UrlHost
  | name (s : String) : UrlHost
  deriving DecidableEq, Repr

/-- Outcome of `Url::parse` with the components the guard inspects.
URL parsing itself is external (the `url` crate); the guard's argument is
modelled as the parse result, with `none` for a parse failure. -/
structure ParsedUrl where
  scheme : String
  username : String
  password : Option String
  host : Option UrlHost
  deriving DecidableEq, Repr

/-- Forbidden host names (checked on the lowercased host). -/
def forbiddenHostName (host : String) : Bool :=
  let h := strToLower host
  h == "localhost" || strEndsWith h ".local" || strEndsWith h ".internal" || strEndsWith h ".localhost"

/-- Rust `validate_url_security` on the parse outcome: `true` means `Ok(())`,
`false` means the security error. -/
def validate_url_security (u : Option ParsedUrl) : Bool :=
  match u with
  | none => false
  | some url =>
    if !(url.scheme == "http" || url.scheme == "https") then false
    else if !(url.username == "") || url.password.isSome then false
    else
      match url.host with
      | none => false
      | some (.ip a) => !is_private_ip a
      | some (.name h) => !forbiddenHostName h

/-! ## Bounded response reading (`read_response_with_limit`) -/

/-- Failures of the bounded reader: the size-limit error and the UTF-8
decode error. -/
inductive FetchErr where
  | sizeLimit : FetchErr
  | notUtf8 : FetchErr
  deriving DecidableEq, Repr

/-- Is one byte a UTF-8 continuation byte (`0x80..=0xBF`)? -/
def isContByte (b : Nat) : Bool := decide (0x80 ≤ b) && decide (b ≤ 0xBF)

/-- UTF-8 validity of a byte sequence, as checked by Rust
`String::from_utf8` (rejecting overlong forms, surrogates, and values
above `U+10FFFF`). -/
def utf8Valid : List Nat → Bool
  | [] => true
  | b :: rest =>
    if b ≤ 0x7F then utf8Valid rest
    else if 0xC2 ≤ b ∧ b ≤ 0xDF then
      match rest with
      | b1 :: r => isContByte b1 && utf8Valid r
      | [] => false
    else if b = 0xE0 then
      match rest with
      | b1 :: b2 :: r => decide (0xA0 ≤ b1) && decide (b1 ≤ 0xBF) && isContByte b2 && utf8Valid r
      | _ => false
    else if (0xE1 ≤ b ∧ b ≤ 0xEC) ∨ (0xEE ≤ b ∧ b ≤ 0xEF) then
      match rest with
      | b1 :: b2 :: r => isContByte b1 && isContByte b2 && utf8Valid r
      | _ => false
    else if b = 0xED then
      match rest with
      | b1 :: b2 :: r => decide (0x80 ≤ b1) && decide (b1 ≤ 0x9F) && isContByte b2 && utf8Valid r
      | _ => false
    else if b = 0xF0 then
      match rest with
      | b1 :: b2 :: b3 :: r =>
        decide (0x90 ≤ b1) && decide (b1 ≤ 0xBF) && isContByte b2 && isContByte b3 && utf8Valid r
      | _ => false
    else if 0xF1 ≤ b ∧ b ≤ 0xF3 then
      match rest with
      | b1 :: b2 :: b3 :: r => isContByte b1 && isContByte b2 && isContByte b3 && utf8Valid r
      | _ => false
    else if b = 0xF4 then
      match rest with
      | b1 :: b2 :: b3 :: r =>
        decide (0x80 ≤ b1) && decide (b1 ≤ 0x8F) && isContByte b2 && isContByte b3 && utf8Valid r
      | _ => false
    else false

/-- The fixed response-size ceiling (`MAX_RESPONSE_SIZE`, 5 MiB). -/
def MAX_RESPONSE_SIZE : Nat := 5 * 1024 * 1024

/-- The accumulation loop of `read_response_with_limit`: before buffering a
chunk, fail with the size-limit error when adding it would exceed the
ceiling; at end of stream, decode the accumulated bytes as UTF-8 (success
carries the validated bytes). -/
def readLoop (maxSize : Nat) : List (List Nat) → List Nat → Except FetchErr (List Nat)
  | [], data => if utf8Valid data then .ok data else .error .notUtf8
  | c :: rest, data =>
    if data.length + c.length > maxSize then .error .sizeLimit
    else readLoop maxSize rest (data ++ c)

/-- Rust `read_response_with_limit` on the stream's chunk sequence. -/
def read_response_with_limit (maxSize : Nat) (chunks : List (List Nat)) : Except FetchErr (List Nat) :=
  readLoop maxSize chunks []

/-- Largest size the accumulation buffer reaches during the loop (a ghost
observer of `data.len()` along the run of `readLoop`). -/
def readPeak (maxSize : Nat) : List (List Nat) → Nat → Nat
  | [], n => n
  | c :: rest, n => if n + c.length > maxSize then n else readPeak maxSize rest (n + c.length)

/-! ## Association-list lemmas -/

theorem assocFind_set_self (fs : List (String × Json)) (k : String) (v : Json)
    (h : assocHas fs k = true) : assocFind (assocSet fs k v) k = some v := by
  induction fs with
  | nil => simp [assocHas, assocFind] at h
  | cons kv t ih =>
    obtain ⟨k2, w⟩ := kv
    by_cases hk : k2 = k
    · simp [assocSet, assocFind, hk]
    · simp [assocSet, assocFind, hk] at h ⊢
      exact ih (by simpa [assocHas, assocFind, hk] using h)

theorem assocSet_of_not_has (fs : List (String × Json)) (k : String) (v : Json)
    (h : assocHas fs k = false) : assocSet fs k v = fs := by
  induction fs with
  | nil => simp [assocSet]
  | cons kv t ih =>
    obtain ⟨k2, w⟩ := kv
    by_cases hk : k2 = k
    · simp [assocHas, assocFind, hk] at h
    · simp [assocSet, hk]
      exact ih (by simpa [assocHas, assocFind, hk] using h)

theorem assocFind_set_ne (fs : List (String × Json)) (k k' : String) (v : Json)
    (h : k' ≠ k) : assocFind (assocSet fs k v) k' = assocFind fs k' := by
  induction fs with
  | nil => simp [assocSet]
  | cons kv t ih =>
    obtain ⟨k2, w⟩ := kv
    by_cases hk : k2 = k
    · subst hk
      have hne : ¬(k2 = k') := fun hh => h hh.symm
      simp [assocSet, assocFind, hne]
    · simp [assocSet, assocFind, hk, ih]

theorem assocSet_set (fs : List (String × Json)) (k : String) (v w : Json) :
    assocSet (assocSet fs k v) k w = assocSet fs k w := by
  induction fs with
  | nil => simp [assocSet]
  | cons kv t ih =>
    obtain ⟨k2, u⟩ := kv
    by_cases hk : k2 = k
    · simp [assocSet, hk]
    · simp [assocSet, hk, ih]

theorem assocSet_self (fs : List (String × Json)) (k : String) (v : Json)
    (h : assocFind fs k = some v) : assocSet fs k v = fs := by
  induction fs with
  | nil => simp [assocSet]
  | cons kv t ih =>
    obtain ⟨k2, u⟩ := kv
    by_cases hk : k2 = k
    · simp [assocFind, hk] at h
      simp [assocSet, hk, h]
    · simp [assocFind, hk] at h
      simp [assocSet, hk, ih h]

theorem assocSet_comm (fs : List (String × Json)) (k1 k2 : String) (v1 v2 : Json)
    (h : k1 ≠ k2) : assocSet (assocSet fs k1 v1) k2 v2 = assocSet (assocSet fs k2 v2) k1 v1 := by
  induction fs with
  | nil => simp [assocSet]
  | cons kv t ih =>
    obtain ⟨k0, u⟩ := kv
    by_cases h1 : k0 = k1
    · subst h1
      simp [assocSet, h, fun hh : k0 = k2 => h hh]
    · by_cases h2 : k0 = k2
      · subst h2
        simp [assocSet, h1, fun hh : k0 = k1 => h1 hh]
      · simp [assocSet, h1, h2, ih]

theorem assocFind_append (fs gs : List (String × Json)) (k : String) :
    assocFind (fs ++ gs) k =
      match assocFind fs k with
      | some v => some v
      | none => assocFind gs k := by
  induction fs with
  | nil => simp [assocFind]
  | cons kv t ih =>
    obtain ⟨k2, w⟩ := kv
    by_cases hk : k2 = k
    · simp [assocFind, hk]
    · simp [assocFind, hk, ih]

theorem keys_assocSet (fs : List (String × Json)) (k : String) (v : Json) :
    (assocSet fs k v).map Prod.fst = fs.map Prod.fst := by
  induction fs with
  | nil => simp [assocSet]
  | cons kv t ih =>
    obtain ⟨k2, w⟩ := kv
    by_cases hk : k2 = k
    · simp [assocSet, hk]
    · simp [assocSet, hk, ih]

theorem assocHas_iff_mem_keys (fs : List (String × Json)) (k : String) :
    assocHas fs k = true ↔ k ∈ fs.map Prod.fst := by
  induction fs with
  | nil => simp [assocHas, assocFind]
  | cons kv t ih =>
    obtain ⟨k2, w⟩ := kv
    by_cases hk : k2 = k
    · simp [assocHas, assocFind, hk]
    · simp [assocHas, assocFind, hk, Ne.symm hk]
      simpa [assocHas] using ih

theorem objUpdate_get_ne (j : Json) (k k' : String) (f : Json → Json) (h : k' ≠ k) :
    (j.objUpdate k f).get k' = j.get k' := by
  cases j with
  | obj fs =>
    simp only [Json.objUpdate]
    cases hf : assocFind fs k with
    | none => simp [Json.get]
    | some v => simp [Json.get, assocFind_set_ne fs k k' (f v) h]
  | null => simp [Json.objUpdate, Json.get]
  | bool b => simp [Json.objUpdate, Json.get]
  | num n => simp [Json.objUpdate, Json.get]
  | str s => simp [Json.objUpdate, Json.get]
  | arr xs => simp [Json.objUpdate, Json.get]

theorem objUpdate_get_self (j : Json) (k : String) (f : Json → Json) (v : Json)
    (h : j.get k = some v) : (j.objUpdate k f).get k = some (f v) := by
  cases j with
  | obj fs =>
    simp only [Json.get] at h
    simp only [Json.objUpdate, h, Json.get]
    exact assocFind_set_self fs k (f v) (by simp [assocHas, h])
  | null => simp [Json.get] at h
  | bool b => simp [Json.get] at h
  | num n => simp [Json.get] at h
  | str s => simp [Json.get] at h
  | arr xs => simp [Json.get] at h

theorem objUpdate_comp (j : Json) (k : String) (f g : Json → Json) :
    (j.objUpdate k f).objUpdate k g = j.objUpdate k (fun v => g (f v)) := by
  cases j with
  | obj fs =>
    simp only [Json.objUpdate]
    cases hf : assocFind fs k with
    | none => simp [Json.objUpdate, hf]
    | some v =>
      simp only [Json.objUpdate]
      rw [assocFind_set_self fs k (f v) (by simp [assocHas, hf])]
      simp [assocSet_set]
  | null => rfl
  | bool b => rfl
  | num n => rfl
  | str s => rfl
  | arr xs => rfl

theorem objUpdate_comm (j : Json) (k1 k2 : String) (f g : Json → Json) (h : k1 ≠ k2) :
    (j.objUpdate k1 f).objUpdate k2 g = (j.objUpdate k2 g).objUpdate k1 f := by
  cases j with
  | obj fs =>
    simp only [Json.objUpdate]
    cases h1 : assocFind fs k1 with
    | none =>
      cases h2 : assocFind fs k2 with
      | none => simp [Json.objUpdate, h1, h2]
      | some v2 =>
        simp [Json.objUpdate, h1, h2, assocFind_set_ne fs k2 k1 (g v2) h]
    | some v1 =>
      cases h2 : assocFind fs k2 with
      | none =>
        simp [Json.objUpdate, h1, h2, assocFind_set_ne fs k1 k2 (f v1) (Ne.symm h)]
      | some v2 =>
        simp only [Json.objUpdate]
        rw [assocFind_set_ne fs k1 k2 (f v1) (Ne.symm h), h2,
          assocFind_set_ne fs k2 k1 (g v2) h, h1]
        simp [assocSet_comm fs k1 k2 (f v1) (g v2) h]
  | null => rfl
  | bool b => rfl
  | num n => rfl
  | str s => rfl
  | arr xs => rfl

/-! ## Claim C5: web-search query selection -/

/-- Concrete webSearch2 body with explicitly empty objective and
searchQueries. -/
def c5Body : Json :=
  .obj [("params", .obj [("objective", .str ""), ("searchQueries", .arr [])])]

/-- Claim C5, counterexample: with an empty `searchQueries` array and an
empty `objective`, the source issues no query at all; the claim's
"otherwise equals the single-element list containing params.objective"
fails here, since that list would be `[""]`. -/
theorem c5_counterexample :
    webSearchQueries c5Body = [] ∧ webSearchQueries c5Body ≠ [webSearchObjective c5Body] := by
  constructor
  · rfl
  · intro h
    simp [webSearchQueries, webSearchObjective, c5Body, Json.index, Json.get, assocFind,
      Json.asStr, webSearchQueryList, Json.asArr] at h

/-- Claim C5 (amended): the query list equals the string elements of
`params.searchQueries` when that list is non-empty; otherwise it is the
single-element list with `params.objective` when the objective is a
non-empty string, and the empty list when the objective is empty or
absent. -/
theorem c5_query_selection (body : Json) :
    (webSearchQueryList body ≠ [] → webSearchQueries body = webSearchQueryList body)
    ∧ (webSearchQueryList body = [] → webSearchObjective body ≠ "" →
        webSearchQueries body = [webSearchObjective body])
    ∧ (webSearchQueryList body = [] → webSearchObjective body = "" →
        webSearchQueries body = []) := by
  refine ⟨fun h1 => ?_, fun h1 h2 => ?_, fun h1 h2 => ?_⟩
  · simp [webSearchQueries, List.isEmpty_iff, h1]
  · simp [webSearchQueries, List.isEmpty_iff, h1, h2]
  · simp [webSearchQueries, List.isEmpty_iff, h1, h2]

/-- Witness for C5: a body with only a non-empty objective issues exactly
that one query. -/
theorem c5_query_selection_witness :
    webSearchQueries (Json.obj [("params", Json.obj [("objective", Json.str "goal")])]) = ["goal"] :=
  (c5_query_selection _).2.1 rfl (by decide)

/-! ## Claim C6: classification totality and default -/

/-- Claim C6: classification is total (a function into the closed
`ApiType`), malformed or empty body bytes are no signal rather than an
error, when no earlier rule matches the default is ProtocolA (Claude), and
a `gpt-4o` model body on an unclassified path with no provider headers
classifies as ProtocolB (Codex). -/
theorem c6_classification (path : String) (headers : List String)
    (h1 : strHasPre (strToLower path) "/api/provider/anthropic" = false)
    (h2 : strHasPre (strToLower path) "/api/provider/openai" = false)
    (h3 : strHasPre (strToLower path) "/api/provider/google" = false)
    (h4 : strHasPre (strToLower path) "/api/" = false)
    (h5 : (strContains (strToLower path) "/messages" && !strContains (strToLower path) "/chat/completions") = false)
    (h6 : (strContains (strToLower path) "/chat/completions" || strContains (strToLower path) "/responses"
            || strEndsWith (strToLower path) "/completions") = false)
    (h7 : (strContains (strToLower path) "/v1beta" || strContains (strToLower path) ":generatecontent"
            || strContains (strToLower path) ":streamgeneratecontent") = false)
    (h8 : headers.contains "anthropic-version" = false) :
    (∀ b, ∃! t, detect_api_type path headers b = t)
    ∧ detect_by_model .empty = none
    ∧ detect_by_model .malformed = none
    ∧ detect_api_type path headers .malformed = .claude
    ∧ detect_api_type path headers .empty = .claude
    ∧ (∀ j, detect_by_model (.parsed j) = none → detect_api_type path headers (.parsed j) = .claude)
    ∧ detect_api_type "/foo" []
        (.parsed (.obj [("model", .str "gpt-4o"), ("messages", .arr [])])) = .codex := by
  refine ⟨fun b => ⟨detect_api_type path headers b, rfl, fun t ht => ht.symm⟩, rfl, rfl, ?_, ?_, ?_, ?_⟩
  · simp [detect_api_type, h1, h2, h3, h4, h5, h6, h7, h8, detect_by_model]
  · simp [detect_api_type, h1, h2, h3, h4, h5, h6, h7, h8, detect_by_model]
  · intro j hj
    simp [detect_api_type, h1, h2, h3, h4, h5, h6, h7, h8, hj]
  · rfl

/-- Witness for C6 at a concrete unclassified path with no headers and a
malformed body. -/
theorem c6_classification_witness :
    detect_api_type "/zzz" [] .malformed = .claude ∧
      detect_api_type "/zzz" []
        (.parsed (.obj [("model", .str "gpt-4o"), ("messages", .arr [])])) = .codex := by
  refine ⟨(c6_classification "/zzz" [] rfl rfl rfl rfl rfl rfl rfl rfl).2.2.2.1, ?_⟩
  rfl

/-! ## Claim C7: upstream path rewriting -/

/-- Claim C7: `extract_llm_path` agrees with the specified rewriting rule
(publisher-shaped Gemini paths to the short form, otherwise the substring
from the first `/v1beta`, else from the first `/v1`, else unchanged), the
publisher-shaped path classifies as ProtocolC (Gemini), and the two
concrete scenario paths rewrite as specified. -/
theorem c7_path_rewriting (p : String) :
    extract_llm_path p = specRewritePath p
    ∧ detect_api_type "/v1beta1/publishers/google/models/gemini-2.0-flash:generateContent" [] .empty
        = .gemini
    ∧ extract_llm_path "/v1beta1/publishers/google/models/gemini-2.0-flash:generateContent"
        = "/v1beta/models/gemini-2.0-flash:generateContent"
    ∧ extract_llm_path "/api/provider/anthropic/v1/messages" = "/v1/messages" := by
  refine ⟨?_, rfl, rfl, rfl⟩
  unfold extract_llm_path specRewritePath
  cases hg : strFind p GEMINI_PUBLISHER_PAT with
  | some pos => simp [hg, GEMINI_PUBLISHER_PAT]
  | none =>
    cases hb : strFind p "/v1beta" with
    | some pos => simp [hg, hb]
    | none =>
      cases hv : strFind p "/v1" with
      | some pos => simp [hg, hb, hv]
      | none => simp [hg, hb, hv]

/-! ## Claim C4: bounded response reading -/

/-- Total byte count of a chunk sequence. -/
def sumLen (chunks : List (List Nat)) : Nat := (chunks.map List.length).sum

theorem readLoop_sizeLimit_iff (chunks : List (List Nat)) (data : List Nat) (maxSize : Nat)
    (h : data.length ≤ maxSize) :
    readLoop maxSize chunks data = .error .sizeLimit ↔ maxSize < data.length + sumLen chunks := by
  induction chunks generalizing data with
  | nil =>
    simp only [readLoop, sumLen, List.map_nil, List.sum_nil, Nat.add_zero]
    constructor
    · intro hc
      by_cases hu : utf8Valid data = true <;> simp [hu] at hc
    · omega
  | cons c rest ih =>
    simp only [readLoop, sumLen, List.map_cons, List.sum_cons]
    by_cases hc : data.length + c.length > maxSize
    · rw [if_pos hc]
      constructor
      · intro _; omega
      · intro _; rfl
    · rw [if_neg hc, ih (data ++ c) (by simp; omega)]
      simp [sumLen]
      omega

theorem readLoop_stops (pre : List (List Nat)) (c : List Nat) (rest : List (List Nat))
    (data : List Nat) (maxSize : Nat)
    (hpre : data.length + sumLen pre ≤ maxSize)
    (hc : maxSize < data.length + sumLen pre + c.length) :
    readLoop maxSize (pre ++ c :: rest) data = .error .sizeLimit
      ∧ readLoop maxSize (pre ++ c :: rest) data = readLoop maxSize (pre ++ [c]) data := by
  induction pre generalizing data with
  | nil =>
    simp only [sumLen, List.map_nil, List.sum_nil, Nat.add_zero] at hpre hc
    simp only [List.nil_append, readLoop]
    have hgt : data.length + c.length > maxSize := by omega
    constructor
    · rw [if_pos hgt]
    · rw [if_pos hgt, if_pos hgt]
  | cons p pre' ih =>
    simp only [sumLen, List.map_cons, List.sum_cons] at hpre hc
    simp only [List.cons_append, readLoop, List.append_eq]
    have hnp : ¬(data.length + p.length > maxSize) := by omega
    rw [if_neg hnp, if_neg hnp]
    have hl1 : (data ++ p).length + sumLen pre' ≤ maxSize := by
      simp only [List.length_append, sumLen]
      omega
    have hl2 : maxSize < (data ++ p).length + sumLen pre' + c.length := by
      simp only [List.length_append, sumLen]
      omega
    exact ih (data ++ p) hl1 hl2

theorem readPeak_le (chunks : List (List Nat)) (n maxSize : Nat) (h : n ≤ maxSize) :
    readPeak maxSize chunks n ≤ maxSize := by
  induction chunks generalizing n with
  | nil => simpa [readPeak] using h
  | cons c rest ih =>
    simp only [readPeak]
    by_cases hc : n + c.length > maxSize
    · rw [if_pos hc]; exact h
    · rw [if_neg hc]
      exact ih (n + c.length) (by omega)

theorem readLoop_ok (chunks : List (List Nat)) (data : List Nat) (maxSize : Nat)
    (h : data.length + sumLen chunks ≤ maxSize) :
    readLoop maxSize chunks data =
      if utf8Valid (data ++ chunks.flatten) then .ok (data ++ chunks.flatten)
      else .error .notUtf8 := by
  induction chunks generalizing data with
  | nil => simp [readLoop]
  | cons c rest ih =>
    simp only [sumLen, List.map_cons, List.sum_cons] at h
    simp only [readLoop, List.flatten_cons]
    have hnc : ¬(data.length + c.length > maxSize) := by omega
    rw [if_neg hnc, ih (data ++ c) (by simp [sumLen]; omega)]
    simp [List.append_assoc]

/-- Claim C4: with the fixed 5 MiB ceiling, the reader fails with the
size-limit error exactly when the chunk total exceeds the ceiling; the
failure happens at the first chunk whose addition would exceed the ceiling,
without buffering that chunk or reading past it (so the result does not
depend on the remaining chunks); the accumulation buffer never exceeds the
ceiling; and when the total stays within the ceiling the accumulated bytes
are decoded as UTF-8, with non-UTF-8 content a decode error rather than a
success. -/
theorem c4_bounded_reader (chunks : List (List Nat)) :
    (read_response_with_limit MAX_RESPONSE_SIZE chunks = .error .sizeLimit
        ↔ MAX_RESPONSE_SIZE < sumLen chunks)
    ∧ (∀ pre c rest, chunks = pre ++ c :: rest →
        sumLen pre ≤ MAX_RESPONSE_SIZE →
        MAX_RESPONSE_SIZE < sumLen pre + c.length →
        read_response_with_limit MAX_RESPONSE_SIZE chunks = .error .sizeLimit
          ∧ read_response_with_limit MAX_RESPONSE_SIZE chunks
              = read_response_with_limit MAX_RESPONSE_SIZE (pre ++ [c]))
    ∧ readPeak MAX_RESPONSE_SIZE chunks 0 ≤ MAX_RESPONSE_SIZE
    ∧ (sumLen chunks ≤ MAX_RESPONSE_SIZE →
        read_response_with_limit MAX_RESPONSE_SIZE chunks =
          if utf8Valid chunks.flatten then .ok chunks.flatten else .error .notUtf8) := by
  refine ⟨?_, ?_, ?_, ?_⟩
  · simpa using readLoop_sizeLimit_iff chunks [] MAX_RESPONSE_SIZE (by simp)
  · intro pre c rest hch hpre hc
    subst hch
    have := readLoop_stops pre c rest [] MAX_RESPONSE_SIZE (by simpa using hpre) (by simpa using hc)
    exact ⟨this.1, this.2⟩
  · exact readPeak_le chunks 0 MAX_RESPONSE_SIZE (by simp [MAX_RESPONSE_SIZE])
  · intro h
    simpa using readLoop_ok chunks [] MAX_RESPONSE_SIZE (by simpa using h)

/-- Witness for C4: a single chunk one byte past the 5 MiB ceiling fails
with the size-limit error, and a small in-limit ASCII payload decodes
successfully. -/
theorem c4_bounded_reader_witness :
    read_response_with_limit MAX_RESPONSE_SIZE [List.replicate 5242881 65] = .error .sizeLimit
      ∧ read_response_with_limit MAX_RESPONSE_SIZE [[104, 105]] = .ok [104, 105] := by
  constructor
  · exact ((c4_bounded_reader [List.replicate 5242881 65]).2.1 [] (List.replicate 5242881 65) []
      rfl (by norm_num [sumLen, MAX_RESPONSE_SIZE])
      (by rw [List.length_replicate]; norm_num [sumLen, MAX_RESPONSE_SIZE])).1
  · have h := (c4_bounded_reader [[104, 105]]).2.2.2 (by norm_num [sumLen, MAX_RESPONSE_SIZE])
    rw [h]
    have hf : ([[104, 105]] : List (List Nat)).flatten = [104, 105] := rfl
    rw [hf]
    have hu : utf8Valid [104, 105] = true := rfl
    rw [hu]
    simp

/-! ## Claim C10: synthesized system field -/

theorem toolsStep_get_ne (j : Json) (k : String) (h : k ≠ "tools") :
    (toolsStep j).get k = j.get k :=
  objUpdate_get_ne j "tools" k _ h

theorem messagesStep_get_ne (j : Json) (k : String) (h : k ≠ "messages") :
    (messagesStep j).get k = j.get k :=
  objUpdate_get_ne j "messages" k _ h

/-- Claim C10: a ProtocolA-classified, non-haiku JSON object body without a
`system` field has one synthesized: the transformed body carries
`system = [{type: "text", text: preamble}]`. -/
theorem c10_system_synthesized (fields : List (String × Json))
    (hns : assocFind fields "system" = none)
    (hhk : modelIsHaiku (Json.obj fields) = false) :
    ∃ out, add_tool_prefix_fn (Json.obj fields) = some out
      ∧ out.get "system" = some (Json.arr [preambleBlock]) := by
  refine ⟨messagesStep (toolsStep (Json.obj (fields ++ [("system", Json.arr [preambleBlock])]))), ?_, ?_⟩
  · simp [add_tool_prefix_fn, hhk, systemStep, hns]
  · rw [messagesStep_get_ne _ _ (by decide), toolsStep_get_ne _ _ (by decide)]
    simp [Json.get, assocFind_append, hns, assocFind]

/-- Witness for C10 at a concrete body without a `system` field. -/
theorem c10_system_synthesized_witness :
    ∃ out, add_tool_prefix_fn (Json.obj [("model", Json.str "claude-3-opus"), ("messages", Json.arr [])]) = some out
      ∧ out.get "system" = some (Json.arr [preambleBlock]) :=
  c10_system_synthesized [("model", Json.str "claude-3-opus"), ("messages", Json.arr [])] rfl rfl

/-! ## Claim C2: haiku passthrough -/

/-- Concrete haiku body without `metadata.user_id`. -/
def c2Body : Json := .obj [("model", .str "claude-3-5-haiku"), ("messages", .arr [])]

/-- Claim C2, counterexample: a ProtocolA-classified haiku body without a
non-empty `metadata.user_id` does not leave the pipeline byte-identical:
`add_tool_prefix` skips its mutations, but the Claude branch still injects
`metadata.user_id`, so the outbound body differs from the inbound body. -/
theorem c2_counterexample :
    detect_api_type "/v1/messages" [] (.parsed c2Body) = .claude
    ∧ modelIsHaiku c2Body = true
    ∧ claudeFinalBody "h" "f" c2Body ≠ some c2Body := by
  refine ⟨rfl, rfl, ?_⟩
  intro h
  have hL : claudeFinalBody "h" "f" c2Body =
      some (Json.obj [("model", Json.str "claude-3-5-haiku"), ("messages", Json.arr []),
        ("metadata", Json.obj [("user_id", Json.str "user_h_account__session_f")])]) := rfl
  rw [hL] at h
  simp [c2Body] at h

/-- Claim C2 (amended): for a body whose model contains `haiku`,
`add_tool_prefix` performs none of its mutations (the body passes that step
unchanged); the outbound body equals the inbound body when a non-empty
`metadata.user_id` is already present, and otherwise the Claude branch
still injects the derived `metadata.user_id` (with canonical field
reordering). -/
theorem c2_haiku_passthrough (j : Json) (uh f : String) (hhk : modelIsHaiku j = true) :
    add_tool_prefix_fn j = some j
    ∧ (hasNonEmptyUserId j = true → claudeFinalBody uh f j = some j)
    ∧ (hasNonEmptyUserId j = false →
        claudeFinalBody uh f j =
          some ((inject_metadata_with_order j
            (mkUserId uh (generate_session_uuid f (j.index "messages")))).getD j)) := by
  refine ⟨by simp [add_tool_prefix_fn, hhk], fun hu => ?_, fun hu => ?_⟩
  · simp [claudeFinalBody, add_tool_prefix_fn, hhk, hu]
  · simp [claudeFinalBody, add_tool_prefix_fn, hhk, hu]

/-- Witness for C2 at a haiku body that already carries a non-empty
`metadata.user_id` (forwarded fully unchanged). -/
theorem c2_haiku_passthrough_witness :
    claudeFinalBody "h" "f"
      (Json.obj [("model", Json.str "claude-3-5-HAIKU"),
        ("metadata", Json.obj [("user_id", Json.str "x")])]) =
      some (Json.obj [("model", Json.str "claude-3-5-HAIKU"),
        ("metadata", Json.obj [("user_id", Json.str "x")])]) :=
  (c2_haiku_passthrough (Json.obj [("model", Json.str "claude-3-5-HAIKU"),
    ("metadata", Json.obj [("user_id", Json.str "x")])]) "h" "f" rfl).2.1 rfl

/-! ## Claim C1: SSRF URL validation -/

theorem landStep (a : Bool) (x y : Nat) :
    (2 * x + a.toNat) &&& (2 * y) = 2 * (x &&& y) := by
  have h := Nat.land_bit a x false y
  simpa [Nat.bit_val] using h

theorem landHigh : ∀ (k q r m : Nat), r < 2 ^ k →
    (2 ^ k * q + r) &&& (2 ^ k * m) = 2 ^ k * (q &&& m) := by
  intro k
  induction k with
  | zero =>
    intro q r m h
    interval_cases r
    simp
  | succ k ih =>
    intro q r m h
    have hb : ∃ b : Bool, b.toNat = r % 2 := by
      rcases Nat.mod_two_eq_zero_or_one r with h0 | h1
      · exact ⟨false, h0.symm⟩
      · exact ⟨true, h1.symm⟩
    obtain ⟨b, hb⟩ := hb
    have e1 : 2 ^ (k + 1) * q + r = 2 * (2 ^ k * q + r / 2) + b.toNat := by
      rw [hb]
      ring_nf
      omega
    have e2 : 2 ^ (k + 1) * m = 2 * (2 ^ k * m) := by ring
    rw [e1, e2, landStep, ih q (r / 2) m (by omega)]
    ring

theorem landMaskHigh (kp top x : Nat) (h : x / 2 ^ kp &&& top = x / 2 ^ kp) :
    x &&& 2 ^ kp * top = 2 ^ kp * (x / 2 ^ kp) := by
  have hsplit : 2 ^ kp * (x / 2 ^ kp) + x % 2 ^ kp = x := Nat.div_add_mod x (2 ^ kp)
  calc x &&& 2 ^ kp * top
      = (2 ^ kp * (x / 2 ^ kp) + x % 2 ^ kp) &&& 2 ^ kp * top := by rw [hsplit]
    _ = 2 ^ kp * (x / 2 ^ kp &&& top) :=
        landHigh kp (x / 2 ^ kp) (x % 2 ^ kp) top (Nat.mod_lt x (by positivity))
    _ = 2 ^ kp * (x / 2 ^ kp) := by rw [h]

set_option maxRecDepth 2000 in
theorem landSelf3 : ∀ y < 4, y &&& 3 = y := by decide

set_option maxRecDepth 8000 in
theorem landSelf127 : ∀ y < 128, y &&& 127 = y := by decide

set_option maxRecDepth 12000 in
theorem landSelf255 : ∀ y < 256, y &&& 255 = y := by decide

set_option maxRecDepth 40000 in
theorem landSelf1023 : ∀ y < 1024, y &&& 1023 = y := by decide

theorem mask_c0 (x : Nat) (hx : x < 256) : x &&& 0xc0 = 64 ↔ (64 ≤ x ∧ x ≤ 127) := by
  have h1 : x &&& 0xc0 = 64 * (x / 64) := by
    have := landMaskHigh 6 3 x (landSelf3 (x / 64) (by omega))
    norm_num at this
    exact this
  rw [h1]
  omega

theorem mask_ff00 (x : Nat) (hx : x < 65536) : x &&& 0xff00 = 0xff00 ↔ 0xff00 ≤ x := by
  have h1 : x &&& 0xff00 = 256 * (x / 256) := by
    have := landMaskHigh 8 255 x (landSelf255 (x / 256) (by omega))
    norm_num at this
    exact this
  rw [h1]
  omega

theorem mask_fe00 (x : Nat) (hx : x < 65536) :
    x &&& 0xfe00 = 0xfc00 ↔ (0xfc00 ≤ x ∧ x ≤ 0xfdff) := by
  have h1 : x &&& 0xfe00 = 512 * (x / 512) := by
    have := landMaskHigh 9 127 x (landSelf127 (x / 512) (by omega))
    norm_num at this
    exact this
  rw [h1]
  omega

theorem mask_ffc0 (x : Nat) (hx : x < 65536) :
    x &&& 0xffc0 = 0xfe80 ↔ (0xfe80 ≤ x ∧ x ≤ 0xfebf) := by
  have h1 : x &&& 0xffc0 = 64 * (x / 64) := by
    have := landMaskHigh 6 1023 x (landSelf1023 (x / 64) (by omega))
    norm_num at this
    exact this
  rw [h1]
  omega

/-- The forbidden IPv4 ranges exactly as the claim words them: loopback,
RFC1918 private, link-local, broadcast, unspecified, multicast, and the
shared-CGN range 100.64.0.0/10. -/
def specForbiddenV4 (i : Ipv4) : Prop :=
  i.o0 = 127
    ∨ i.o0 = 10 ∨ (i.o0 = 172 ∧ 16 ≤ i.o1 ∧ i.o1 ≤ 31) ∨ (i.o0 = 192 ∧ i.o1 = 168)
    ∨ (i.o0 = 169 ∧ i.o1 = 254)
    ∨ (i.o0 = 255 ∧ i.o1 = 255 ∧ i.o2 = 255 ∧ i.o3 = 255)
    ∨ (i.o0 = 0 ∧ i.o1 = 0 ∧ i.o2 = 0 ∧ i.o3 = 0)
    ∨ (224 ≤ i.o0 ∧ i.o0 ≤ 239)
    ∨ (i.o0 = 100 ∧ 64 ≤ i.o1 ∧ i.o1 ≤ 127)

/-- The forbidden IPv6 ranges exactly as the claim words them: loopback,
unspecified, multicast (ff00::/8), unique-local (fc00::/7), and link-local
(fe80::/10). -/
def specForbiddenV6 (a : Ipv6) : Prop :=
  (a.s0 = 0 ∧ a.s1 = 0 ∧ a.s2 = 0 ∧ a.s3 = 0 ∧ a.s4 = 0 ∧ a.s5 = 0 ∧ a.s6 = 0 ∧ a.s7 = 1)
    ∨ (a.s0 = 0 ∧ a.s1 = 0 ∧ a.s2 = 0 ∧ a.s3 = 0 ∧ a.s4 = 0 ∧ a.s5 = 0 ∧ a.s6 = 0 ∧ a.s7 = 0)
    ∨ 0xff00 ≤ a.s0
    ∨ (0xfc00 ≤ a.s0 ∧ a.s0 ≤ 0xfdff)
    ∨ (0xfe80 ≤ a.s0 ∧ a.s0 ≤ 0xfebf)

/-- Forbidden literal IPs per the claim. -/
def specForbiddenIp : IpAddr → Prop
  | .v4 i => specForbiddenV4 i
  | .v6 a => specForbiddenV6 a

/-- Octet / segment bounds of real addresses (u8 / u16 in the source). -/
def wfIp : IpAddr → Prop
  | .v4 i => i.o0 < 256 ∧ i.o1 < 256 ∧ i.o2 < 256 ∧ i.o3 < 256
  | .v6 a => a.s0 < 65536 ∧ a.s1 < 65536 ∧ a.s2 < 65536 ∧ a.s3 < 65536
      ∧ a.s4 < 65536 ∧ a.s5 < 65536 ∧ a.s6 < 65536 ∧ a.s7 < 65536

/-- Well-formedness of a parse outcome: a literal-IP host has real octet /
segment bounds. -/
def wfUrl : Option ParsedUrl → Prop
  | none => True
  | some url =>
    match url.host with
    | some (.ip a) => wfIp a
    | _ => True

theorem is_private_ip_iff (a : IpAddr) (hwf : wfIp a) :
    is_private_ip a = true ↔ specForbiddenIp a := by
  cases a with
  | v4 i =>
    obtain ⟨h0, h1, h2, h3⟩ := hwf
    simp only [is_private_ip, v4IsLoopback, v4IsPrivate, v4IsLinkLocal, v4IsBroadcast,
      v4IsUnspecified, v4IsMulticast, Bool.or_eq_true, Bool.and_eq_true, beq_iff_eq,
      decide_eq_true_eq, specForbiddenIp, specForbiddenV4]
    rw [mask_c0 i.o1 h1]
    simp only [and_assoc, or_assoc]
  | v6 s =>
    obtain ⟨h0, h1, h2, h3, h4, h5, h6, h7⟩ := hwf
    simp only [is_private_ip, v6IsLoopback, v6IsUnspecified, v6IsMulticast, Bool.or_eq_true,
      Bool.and_eq_true, beq_iff_eq, specForbiddenIp, specForbiddenV6]
    rw [mask_ff00 s.s0 h0, mask_fe00 s.s0 h0, mask_ffc0 s.s0 h0]
    simp only [and_assoc, or_assoc]

/-- Host rule of the claim: literal IPs must avoid the forbidden ranges;
names must not be forbidden. -/
def specHostAllowed : UrlHost → Prop
  | .ip a => ¬ specForbiddenIp a
  | .name s => forbiddenHostName s = false

/-- Acceptance as the claim words it: the URL parses, the scheme is http or
https, there is no userinfo, and the host is present and allowed. -/
def specAccepts (u : Option ParsedUrl) : Prop :=
  ∃ url, u = some url
    ∧ (url.scheme = "http" ∨ url.scheme = "https")
    ∧ url.username = "" ∧ url.password = none
    ∧ ∃ h, url.host = some h ∧ specHostAllowed h

/-- Claim C1: `validate_url_security` accepts exactly the URLs the claim
describes, and the seven concrete examples behave as stated (userinfo,
non-http scheme, `localhost`, `.internal` names, and the private IP
`10.0.0.5` are rejected; `https://example.com/page` and the public IP
`93.184.216.34` are accepted). -/
theorem c1_validate (u : Option ParsedUrl) (hwf : wfUrl u) :
    (validate_url_security u = true ↔ specAccepts u)
    ∧ validate_url_security (some ⟨"http", "user", some "pass", some (.name "example.com")⟩) = false
    ∧ validate_url_security (some ⟨"ftp", "", none, some (.name "example.com")⟩) = false
    ∧ validate_url_security (some ⟨"http", "", none, some (.name "localhost")⟩) = false
    ∧ validate_url_security (some ⟨"http", "", none, some (.name "good.internal")⟩) = false
    ∧ validate_url_security (some ⟨"http", "", none, some (.ip (.v4 ⟨10, 0, 0, 5⟩))⟩) = false
    ∧ validate_url_security (some ⟨"https", "", none, some (.name "example.com")⟩) = true
    ∧ validate_url_security (some ⟨"http", "", none, some (.ip (.v4 ⟨93, 184, 216, 34⟩))⟩) = true := by
  refine ⟨?_, rfl, rfl, rfl, rfl, rfl, rfl, rfl⟩
  cases u with
  | none =>
    simp [validate_url_security, specAccepts]
  | some url =>
    simp only [validate_url_security, specAccepts, Option.some.injEq, exists_eq_left']
    by_cases hs : url.scheme = "http" ∨ url.scheme = "https"
    · have hsb : (url.scheme == "http" || url.scheme == "https") = true := by
        rcases hs with h | h <;> simp [h]
      rw [hsb]
      simp only [Bool.not_true, Bool.false_eq_true, if_false]
      by_cases hu : url.username = "" ∧ url.password = none
      · have hub : (!(url.username == "") || url.password.isSome) = false := by
          simp [hu.1, hu.2]
        rw [hub]
        simp only [Bool.false_eq_true, if_false]
        cases hh : url.host with
        | none => simp [hs, hu.1, hu.2]
        | some h =>
          cases h with
          | ip a =>
            have hwa : wfIp a := by
              simpa [wfUrl, hh] using hwf
            simp only [Bool.not_eq_true', Option.some.injEq]
            constructor
            · intro hpriv
              refine ⟨hs, hu.1, hu.2, .ip a, rfl, ?_⟩
              simp only [specHostAllowed]
              rw [← is_private_ip_iff a hwa]
              simp [hpriv]
            · rintro ⟨-, -, -, h2, hh2, hall⟩
              subst hh2
              simp only [specHostAllowed] at hall
              rw [← is_private_ip_iff a hwa] at hall
              simpa using hall
          | name n =>
            simp only [Bool.not_eq_true', Option.some.injEq]
            constructor
            · intro hfb
              exact ⟨hs, hu.1, hu.2, .name n, rfl, hfb⟩
            · rintro ⟨-, -, -, h2, hh2, hall⟩
              subst hh2
              exact hall
      · have hub : (!(url.username == "") || url.password.isSome) = true := by
          rcases not_and_or.mp hu with h | h
          · simp [h]
          · cases hp : url.password with
            | none => exact absurd (by simp_all) h
            | some p => simp
        rw [hub]
        simp only [if_true]
        constructor
        · intro hfalse
          exact absurd hfalse (by simp)
        · rintro ⟨-, hu1, hu2, -⟩
          exact absurd ⟨hu1, hu2⟩ hu
    · have hsb : (url.scheme == "http" || url.scheme == "https") = false := by
        push_neg at hs
        simp [hs.1, hs.2]
      rw [hsb]
      simp only [Bool.not_false, if_true]
      constructor
      · intro hfalse
        exact absurd hfalse (by simp)
      · rintro ⟨hs1, -⟩
        exact absurd hs1 hs

/-- Witness for C1 at a public host name URL (well-formed trivially). -/
theorem c1_validate_witness :
    (validate_url_security (some ⟨"https", "", none, some (.name "example.com")⟩) = true
      ↔ specAccepts (some ⟨"https", "", none, some (.name "example.com")⟩))
    ∧ validate_url_security (some ⟨"http", "", none, some (.ip (.v4 ⟨10, 0, 0, 5⟩))⟩) = false :=
  ⟨(c1_validate (some ⟨"https", "", none, some (.name "example.com")⟩) trivial).1,
   (c1_validate none trivial).2.2.2.2.2.1⟩

/-! ## Claim C8: session identifier determinism and shape -/

/-- Hexadecimal character (lowercase, as produced by `{:x}` formatting). -/
def isHexChar (c : Char) : Bool := c.isDigit || (decide ('a' ≤ c) && decide (c ≤ 'f'))

/-- UUID grouping shape of the claim: five hyphen-separated groups of
8, 4, 4, 4 and 12 hexadecimal characters. -/
def uuidShaped (s : String) : Prop :=
  ∃ a b c d e : List Char,
    s.data = a ++ '-' :: (b ++ '-' :: (c ++ '-' :: (d ++ '-' :: e)))
    ∧ a.length = 8 ∧ b.length = 4 ∧ c.length = 4 ∧ d.length = 4 ∧ e.length = 12
    ∧ a.all isHexChar = true ∧ b.all isHexChar = true ∧ c.all isHexChar = true
    ∧ d.all isHexChar = true ∧ e.all isHexChar = true

theorem hexChar_hex : ∀ n < 16, isHexChar (hexChar n) = true := by decide

theorem hexByte_all_hex (b : Nat) : (hexByte b).all isHexChar = true := by
  simp only [hexByte, List.all_cons, List.all_nil, Bool.and_eq_true]
  refine ⟨hexChar_hex _ (Nat.mod_lt _ (by norm_num)), hexChar_hex _ (Nat.mod_lt _ (by norm_num)), trivial⟩

theorem flatten_map_hexByte_length (l : List Nat) :
    ((l.map hexByte).flatten).length = 2 * l.length := by
  induction l with
  | nil => simp
  | cons b t ih =>
    simp only [List.map_cons, List.flatten_cons, List.length_append, ih, List.length_cons]
    simp [hexByte]
    ring

theorem flatten_map_hexByte_hex (l : List Nat) :
    ((l.map hexByte).flatten).all isHexChar = true := by
  induction l with
  | nil => simp
  | cons b t ih =>
    simp only [List.map_cons, List.flatten_cons, List.all_append, Bool.and_eq_true]
    exact ⟨hexByte_all_hex b, ih⟩

theorem sha256Bytes_length (msg : List Nat) : (sha256Bytes msg).length = 32 := by
  simp [sha256Bytes, word4]

theorem hexDigest_length (msg : List Nat) : (hexDigest msg).length = 64 := by
  rw [hexDigest, flatten_map_hexByte_length, sha256Bytes_length]

theorem hexDigest_hex (msg : List Nat) : (hexDigest msg).all isHexChar = true :=
  flatten_map_hexByte_hex (sha256Bytes msg)

theorem all_take_of_all {p : Char → Bool} {l : List Char} (h : l.all p = true) (n : Nat) :
    (l.take n).all p = true := by
  simp only [List.all_eq_true] at h ⊢
  intro x hx
  exact h x (List.mem_of_mem_take hx)

theorem all_drop_of_all {p : Char → Bool} {l : List Char} (h : l.all p = true) (n : Nat) :
    (l.drop n).all p = true := by
  simp only [List.all_eq_true] at h ⊢
  intro x hx
  exact h x (List.mem_of_mem_drop hx)

theorem uuidShaped_mk (h : List Char) (hlen : h.length = 64) (hhex : h.all isHexChar = true) :
    uuidShaped ⟨h.take 8 ++ '-' :: ((h.drop 8).take 4 ++ '-' :: ((h.drop 12).take 4
      ++ '-' :: ((h.drop 16).take 4 ++ '-' :: (h.drop 20).take 12)))⟩ := by
  refine ⟨h.take 8, (h.drop 8).take 4, (h.drop 12).take 4, (h.drop 16).take 4,
    (h.drop 20).take 12, rfl, ?_, ?_, ?_, ?_, ?_, ?_, ?_, ?_, ?_, ?_⟩
  · simp [hlen]
  · simp [hlen]
  · simp [hlen]
  · simp [hlen]
  · simp [hlen]
  · exact all_take_of_all hhex 8
  · exact all_take_of_all (all_drop_of_all hhex 8) 4
  · exact all_take_of_all (all_drop_of_all hhex 12) 4
  · exact all_take_of_all (all_drop_of_all hhex 16) 4
  · exact all_take_of_all (all_drop_of_all hhex 20) 12

/-- Claim C8: `generate_session_uuid` is deterministic on non-empty
extracted content (any two message lists with the same extracted text give
the identical token, independently of the random input), the token has the
8-4-4-4-12 hyphen-separated hexadecimal shape, and empty extracted content
returns the freshly generated random UUID (modelled as the `freshUuid`
input). -/
theorem c8_session_uuid :
    (∀ f1 f2 m1 m2, sessionContent m1 = sessionContent m2 → sessionContent m1 ≠ "" →
        generate_session_uuid f1 m1 = generate_session_uuid f2 m2)
    ∧ (∀ f m, sessionContent m ≠ "" → uuidShaped (generate_session_uuid f m))
    ∧ (∀ f m, sessionContent m = "" → generate_session_uuid f m = f) := by
  refine ⟨fun f1 f2 m1 m2 he hne => ?_, fun f m hne => ?_, fun f m he => ?_⟩
  · have hne2 : sessionContent m2 ≠ "" := he ▸ hne
    simp only [generate_session_uuid, he, if_neg hne2]
  · simp only [generate_session_uuid, if_neg hne]
    exact uuidShaped_mk _ (hexDigest_length _) (hexDigest_hex _)
  · simp only [generate_session_uuid, if_pos he]

/-- Witness for C8: two differently-shaped message lists with the same
extracted text "abc" yield the same token under different random inputs;
the token is UUID-shaped; and an empty message list returns the fresh
UUID. -/
theorem c8_session_uuid_witness :
    generate_session_uuid "A" (Json.arr [Json.obj [("content", Json.str "abc")]])
        = generate_session_uuid "B" (Json.arr [Json.obj [("content",
            Json.arr [Json.obj [("type", Json.str "text"), ("text", Json.str "abc")]])]])
      ∧ uuidShaped (generate_session_uuid "A" (Json.arr [Json.obj [("content", Json.str "abc")]]))
      ∧ generate_session_uuid "FRESH" (Json.arr []) = "FRESH" :=
  ⟨(c8_session_uuid).1 "A" "B" _ _ rfl (by decide),
   (c8_session_uuid).2.1 "A" _ (by decide),
   (c8_session_uuid).2.2 "FRESH" _ rfl⟩

/-! ## Claim C9: idempotence of prefixing and sanitization -/

theorem matchBrandAt_C : ∀ t, matchBrandAt ('C' :: t) = none := fun _ => rfl

theorem claudeData : "Claude Code".data = ['C','l','a','u','d','e',' ','C','o','d','e'] := rfl

theorem matchBrandAt_pos {l : List Char} {n : Nat} (h : matchBrandAt l = some n) : 0 < n := by
  unfold matchBrandAt at h
  split_ifs at h <;> simp_all <;> omega

theorem sanSkipClaude : ∀ (X : List Char) (p : Bool),
    sanChars ("Claude Code".data ++ X) p = "Claude Code".data ++ sanChars X true := by
  intro X p
  rw [claudeData]
  cases p <;>
    simp [sanChars, matchBrandAt_C, isWordChar]

theorem tryTok_nil (l : List Char) : tryTok [] l = boundaryAfter l := rfl

theorem tryTok_cons (p t : Char) (ts : List Char) (rest : List Char) (h : p.toLower = t) :
    tryTok (t :: ts) (p :: rest) = tryTok ts rest := by
  simp [tryTok, matchTok, h]

theorem tryTok_cons_ne (p t : Char) (ts : List Char) (rest : List Char) (h : ¬p.toLower = t) :
    tryTok (t :: ts) (p :: rest) = false := by
  simp [tryTok, matchTok, h]

theorem tryTok_agree : ∀ (pre tok : List Char), 'l' ∉ tok →
    ∀ (a : Char) (γ δ : List Char), tryTok tok (pre ++ a :: γ) = false →
      tryTok tok (pre ++ 'C' :: 'l' :: δ) = false := by
  intro pre
  induction pre with
  | nil =>
    intro tok hl a γ δ hfail
    cases tok with
    | nil => rfl
    | cons t ts =>
      by_cases ht : t = 'c'
      · subst ht
        cases ts with
        | nil => rfl
        | cons u us =>
          have hu : ¬('l'.toLower = u) := by
            intro h
            have h2 : u = 'l' := by
              rw [← h]
              decide
            cases h2
            exact hl (by simp)
          rw [List.nil_append, tryTok_cons 'C' 'c' (u::us) ('l'::δ) rfl,
            tryTok_cons_ne 'l' u us δ hu]
      · have hC : ¬('C'.toLower = t) := by
          intro h
          apply ht
          rw [← h]
          decide
        rw [List.nil_append, tryTok_cons_ne 'C' t ts ('l'::δ) hC]
  | cons p pre ih =>
    intro tok hl a γ δ hfail
    cases tok with
    | nil =>
      rw [List.cons_append] at hfail ⊢
      rw [tryTok_nil] at hfail ⊢
      simpa [boundaryAfter] using hfail
    | cons t ts =>
      by_cases hp : p.toLower = t
      · rw [List.cons_append] at hfail ⊢
        rw [tryTok_cons p t ts _ hp] at hfail
        rw [tryTok_cons p t ts _ hp]
        exact ih ts (fun h => hl (List.mem_cons_of_mem _ h)) a γ δ hfail
      · rw [List.cons_append, tryTok_cons_ne p t ts _ hp]

theorem matchBrandAt_agree (pre : List Char) (a : Char) (γ δ : List Char)
    (h : matchBrandAt (pre ++ a :: γ) = none) : matchBrandAt (pre ++ 'C' :: 'l' :: δ) = none := by
  unfold matchBrandAt at h ⊢
  split_ifs at h with w1 w2 w3 w4
  have g1 := tryTok_agree pre "opencode".data (by decide) a γ δ (by simpa using w1)
  have g2 := tryTok_agree pre "amp-code".data (by decide) a γ δ (by simpa using w2)
  have g3 := tryTok_agree pre "ampcode".data (by decide) a γ δ (by simpa using w3)
  have g4 := tryTok_agree pre "amp".data (by decide) a γ δ (by simpa using w4)
  rw [if_neg (by simp [g1]), if_neg (by simp [g2]), if_neg (by simp [g3]), if_neg (by simp [g4])]

theorem sanDiverge : ∀ (n : Nat) (cs : List Char) (q : Bool), cs.length ≤ n →
    sanChars cs q = cs
      ∨ ∃ pre a γ δ, cs = pre ++ a :: γ ∧ sanChars cs q = pre ++ 'C' :: 'l' :: δ := by
  intro n
  induction n with
  | zero =>
    intro cs q h
    cases cs with
    | nil => left; simp [sanChars]
    | cons c cs' => simp at h
  | succ n ih =>
    intro cs q hlen
    cases cs with
    | nil => left; simp [sanChars]
    | cons c cs' =>
      by_cases hq : q
      · rcases ih cs' (isWordChar c) (by simpa using Nat.le_of_succ_le_succ hlen)
          with hL | ⟨pre, a, γ, δ, hcs, hout⟩
        · left
          simp [sanChars, hq, hL]
        · right
          exact ⟨c :: pre, a, γ, δ, by simp [hcs], by simp [sanChars, hq, hout]⟩
      · cases hm : matchBrandAt (c :: cs') with
        | some k =>
          right
          refine ⟨[], c, cs', "aude Code".data ++ sanChars (cs'.drop (k - 1)) true, by simp, ?_⟩
          have e : sanChars (c :: cs') q
              = "Claude Code".data ++ sanChars (cs'.drop (k - 1)) true := by
            simp [sanChars, hq, hm]
          rw [e, claudeData]
          simp
        | none =>
          rcases ih cs' (isWordChar c) (by simpa using Nat.le_of_succ_le_succ hlen)
            with hL | ⟨pre, a, γ, δ, hcs, hout⟩
          · left
            simp [sanChars, hq, hm, hL]
          · right
            exact ⟨c :: pre, a, γ, δ, by simp [hcs], by simp [sanChars, hq, hm, hout]⟩

theorem sanChars_idem : ∀ (n : Nat) (l : List Char) (p : Bool), l.length ≤ n →
    sanChars (sanChars l p) p = sanChars l p := by
  intro n
  induction n with
  | zero =>
    intro l p h
    cases l with
    | nil => simp [sanChars]
    | cons c cs => simp at h
  | succ n ih =>
    intro l p hlen
    cases l with
    | nil => simp [sanChars]
    | cons c cs =>
      have hcs : cs.length ≤ n := by simpa using Nat.le_of_succ_le_succ hlen
      by_cases hp : p
      · have e : sanChars (c :: cs) p = c :: sanChars cs (isWordChar c) := by
          simp [sanChars, hp]
        rw [e]
        have e2 : sanChars (c :: sanChars cs (isWordChar c)) p
            = c :: sanChars (sanChars cs (isWordChar c)) (isWordChar c) := by
          simp [sanChars, hp]
        rw [e2, ih cs (isWordChar c) hcs]
      · cases hm : matchBrandAt (c :: cs) with
        | some k =>
          have e : sanChars (c :: cs) p
              = "Claude Code".data ++ sanChars (cs.drop (k - 1)) true := by
            simp [sanChars, hp, hm]
          rw [e, sanSkipClaude]
          rw [ih (cs.drop (k - 1)) true (le_trans (by simp) hcs)]
        | none =>
          have e : sanChars (c :: cs) p = c :: sanChars cs (isWordChar c) := by
            simp [sanChars, hp, hm]
          rw [e]
          have hm2 : matchBrandAt (c :: sanChars cs (isWordChar c)) = none := by
            rcases sanDiverge cs.length cs (isWordChar c) le_rfl
              with hL | ⟨pre, a, γ, δ, hcso, hout⟩
            · rw [hL]
              exact hm
            · rw [hout]
              have hsplit : (c :: cs) = (c :: pre) ++ a :: γ := by simp [hcso]
              have hag := matchBrandAt_agree (c :: pre) a γ δ (by rw [← hsplit]; exact hm)
              simpa using hag
          have e2 : sanChars (c :: sanChars cs (isWordChar c)) p
              = c :: sanChars (sanChars cs (isWordChar c)) (isWordChar c) := by
            simp [sanChars, hp, hm2]
          rw [e2, ih cs (isWordChar c) hcs]

theorem sanitize_brand_text_idem (s : String) :
    sanitize_brand_text (sanitize_brand_text s) = sanitize_brand_text s := by
  simp only [sanitize_brand_text]
  exact congrArg String.mk (sanChars_idem (s.data.length) s.data false le_rfl)

theorem assocFind_mapInsert_ne (fs : List (String × Json)) (k k' : String) (v : Json)
    (h : k' ≠ k) : assocFind (mapInsert fs k v) k' = assocFind fs k' := by
  unfold mapInsert
  by_cases hh : assocHas fs k = true
  · rw [if_pos hh, assocFind_set_ne fs k k' v h]
  · rw [if_neg hh, assocFind_append]
    cases hf : assocFind fs k' with
    | some w => rfl
    | none => simp [assocFind, Ne.symm h]

theorem assocHas_mapInsert_self (fs : List (String × Json)) (k : String) (v : Json) :
    assocHas (mapInsert fs k v) k = true := by
  unfold mapInsert
  by_cases hh : assocHas fs k = true
  · rw [if_pos hh]
    simp [assocHas, assocFind_set_self fs k v hh]
  · rw [if_neg hh]
    have : assocFind fs k = none := by
      cases hf : assocFind fs k with
      | some w => simp [assocHas, hf] at hh
      | none => rfl
    simp [assocHas, assocFind_append, this, assocFind]

theorem assocFind_mapInsert_self (fs : List (String × Json)) (k : String) (v : Json) :
    assocFind (mapInsert fs k v) k = some v := by
  unfold mapInsert
  by_cases hh : assocHas fs k = true
  · rw [if_pos hh]
    exact assocFind_set_self fs k v hh
  · rw [if_neg hh]
    have : assocFind fs k = none := by
      cases hf : assocFind fs k with
      | some w => simp [assocHas, hf] at hh
      | none => rfl
    simp [assocFind_append, this, assocFind]

theorem mapInsert_eq_of_has (fs : List (String × Json)) (k : String) (v : Json)
    (h : assocHas fs k = true) : mapInsert fs k v = assocSet fs k v := by
  unfold mapInsert
  rw [if_pos h]

theorem mapInsert_mapInsert (fs : List (String × Json)) (k : String) (v : Json) :
    mapInsert (mapInsert fs k v) k v = mapInsert fs k v := by
  rw [mapInsert_eq_of_has _ k v (assocHas_mapInsert_self fs k v)]
  exact assocSet_self _ k v (assocFind_mapInsert_self fs k v)

theorem ncc_obj (gs : List (String × Json)) :
    normalize_cache_control (Json.obj gs) =
      if assocHas gs "cache_control" = true
      then Json.obj (mapInsert gs "cache_control" CACHE_CONTROL_VALUE)
      else Json.obj gs := rfl

theorem ncc_idem (t : Json) :
    normalize_cache_control (normalize_cache_control t) = normalize_cache_control t := by
  cases t with
  | obj fs =>
    rw [ncc_obj]
    by_cases hh : assocHas fs "cache_control" = true
    · rw [if_pos hh, ncc_obj, if_pos (assocHas_mapInsert_self fs _ _), mapInsert_mapInsert]
    · rw [if_neg hh, ncc_obj, if_neg hh]
  | null => rfl
  | bool b => rfl
  | num n => rfl
  | str s => rfl
  | arr xs => rfl

theorem ncc_get_ne (t : Json) (k : String) (h : k ≠ "cache_control") :
    (normalize_cache_control t).get k = t.get k := by
  cases t with
  | obj fs =>
    rw [ncc_obj]
    by_cases hh : assocHas fs "cache_control" = true
    · rw [if_pos hh]
      simp [Json.get, assocFind_mapInsert_ne fs _ k _ h]
    · rw [if_neg hh]
  | null => rfl
  | bool b => rfl
  | num n => rfl
  | str s => rfl
  | arr xs => rfl

theorem ncc_objUpdate_ne (j : Json) (k : String) (f : Json → Json) (h : k ≠ "cache_control") :
    normalize_cache_control (j.objUpdate k f) = (normalize_cache_control j).objUpdate k f := by
  cases j with
  | obj fs =>
    simp only [Json.objUpdate]
    cases hf : assocFind fs k with
    | none =>
      rw [ncc_obj]
      by_cases hh : assocHas fs "cache_control" = true
      · rw [if_pos hh]
        simp only [Json.objUpdate]
        rw [assocFind_mapInsert_ne fs _ k _ h, hf]
      · rw [if_neg hh]
        simp [Json.objUpdate, hf]
    | some v =>
      have hhset : assocHas (assocSet fs k (f v)) "cache_control" = assocHas fs "cache_control" := by
        simp [assocHas, assocFind_set_ne fs k "cache_control" (f v) (Ne.symm h)]
      rw [ncc_obj, ncc_obj, hhset]
      by_cases hh : assocHas fs "cache_control" = true
      · rw [if_pos hh, if_pos hh]
        simp only [Json.objUpdate]
        rw [assocFind_mapInsert_ne fs _ k _ h, hf]
        have hcomm : mapInsert (assocSet fs k (f v)) "cache_control" CACHE_CONTROL_VALUE
            = assocSet (mapInsert fs "cache_control" CACHE_CONTROL_VALUE) k (f v) := by
          rw [mapInsert_eq_of_has _ _ _ (by rw [hhset]; exact hh), mapInsert_eq_of_has _ _ _ hh]
          exact assocSet_comm fs k "cache_control" (f v) CACHE_CONTROL_VALUE h
        rw [hcomm]
      · rw [if_neg hh, if_neg hh]
        simp [Json.objUpdate, hf]
  | null => rfl
  | bool b => rfl
  | num n => rfl
  | str s => rfl
  | arr xs => rfl

theorem strHasPre_append (pre s : String) : strHasPre (pre ++ s) pre = true := by
  simp only [strHasPre, String.data_append]
  rw [List.isPrefixOf_iff_prefix]
  exact List.prefix_append _ _

theorem bind_asStr {o : Option Json} {s : String} (h : o.bind Json.asStr = some s) :
    o = some (Json.str s) := by
  cases o with
  | none => simp at h
  | some v =>
    simp only [Option.some_bind] at h
    cases v <;> simp [Json.asStr] at h
    simp [h]

theorem fixToolItem_idem (t : Json) : fixToolItem (fixToolItem t) = fixToolItem t := by
  have hncc := ncc_idem t
  cases hn : ((normalize_cache_control t).get "name").bind Json.asStr with
  | none =>
    have e1 : fixToolItem t = normalize_cache_control t := by
      simp only [fixToolItem, hn]
    rw [e1]
    simp only [fixToolItem, hncc, hn]
  | some n =>
    by_cases hpre : strHasPre n TOOL_MARK = true
    · have e1 : fixToolItem t = normalize_cache_control t := by
        simp only [fixToolItem, hn]
        rw [if_pos hpre]
      rw [e1]
      simp only [fixToolItem, hncc, hn]
      rw [if_pos hpre]
    · have e1 : fixToolItem t
          = (normalize_cache_control t).objUpdate "name" (fun _ => Json.str (TOOL_MARK ++ n)) := by
        simp only [fixToolItem, hn]
        rw [if_neg hpre]
      have h2 : normalize_cache_control
            ((normalize_cache_control t).objUpdate "name" (fun _ => Json.str (TOOL_MARK ++ n)))
          = (normalize_cache_control t).objUpdate "name" (fun _ => Json.str (TOOL_MARK ++ n)) := by
        rw [ncc_objUpdate_ne _ _ _ (by decide), hncc]
      have hget : ((normalize_cache_control t).objUpdate "name"
            (fun _ => Json.str (TOOL_MARK ++ n))).get "name" = some (Json.str (TOOL_MARK ++ n)) :=
        objUpdate_get_self _ _ _ _ (bind_asStr hn)
      rw [e1]
      simp only [fixToolItem, h2, hget, Option.some_bind, Json.asStr]
      rw [if_pos (strHasPre_append TOOL_MARK n)]

theorem fixContentItem_idem (it : Json) : fixContentItem (fixContentItem it) = fixContentItem it := by
  have hncc := ncc_idem it
  by_cases hty : ((normalize_cache_control it).get "type").bind Json.asStr = some "tool_use"
  · cases hn : ((normalize_cache_control it).get "name").bind Json.asStr with
    | none =>
      have e1 : fixContentItem it = normalize_cache_control it := by
        simp only [fixContentItem]
        rw [if_pos hty]
        simp only [hn]
      rw [e1]
      simp only [fixContentItem, hncc]
      rw [if_pos hty]
      simp only [hn]
    | some n =>
      by_cases hpre : strHasPre n TOOL_MARK = true
      · have e1 : fixContentItem it = normalize_cache_control it := by
          simp only [fixContentItem]
          rw [if_pos hty]
          simp only [hn]
          rw [if_pos hpre]
        rw [e1]
        simp only [fixContentItem, hncc]
        rw [if_pos hty]
        simp only [hn]
        rw [if_pos hpre]
      · have e1 : fixContentItem it
            = (normalize_cache_control it).objUpdate "name" (fun _ => Json.str (TOOL_MARK ++ n)) := by
          simp only [fixContentItem]
          rw [if_pos hty]
          simp only [hn]
          rw [if_neg hpre]
        have h2 : normalize_cache_control
              ((normalize_cache_control it).objUpdate "name" (fun _ => Json.str (TOOL_MARK ++ n)))
            = (normalize_cache_control it).objUpdate "name" (fun _ => Json.str (TOOL_MARK ++ n)) := by
          rw [ncc_objUpdate_ne _ _ _ (by decide), hncc]
        have hty2 : (((normalize_cache_control it).objUpdate "name"
              (fun _ => Json.str (TOOL_MARK ++ n))).get "type").bind Json.asStr = some "tool_use" := by
          rw [objUpdate_get_ne _ _ _ _ (by decide)]
          exact hty
        have hget : ((normalize_cache_control it).objUpdate "name"
              (fun _ => Json.str (TOOL_MARK ++ n))).get "name" = some (Json.str (TOOL_MARK ++ n)) :=
          objUpdate_get_self _ _ _ _ (bind_asStr hn)
        rw [e1]
        simp only [fixContentItem, h2]
        rw [if_pos hty2]
        simp only [hget, Option.some_bind, Json.asStr]
        rw [if_pos (strHasPre_append TOOL_MARK n)]
  · have e1 : fixContentItem it = normalize_cache_control it := by
      simp only [fixContentItem]
      rw [if_neg hty]
    rw [e1]
    simp only [fixContentItem, hncc]
    rw [if_neg hty]

theorem toolsArrayFix_idem (v : Json) : toolsArrayFix (toolsArrayFix v) = toolsArrayFix v := by
  cases v with
  | arr ts =>
    simp only [toolsArrayFix, List.map_map]
    rw [show fixToolItem ∘ fixToolItem = fixToolItem from funext fixToolItem_idem]
  | null => rfl
  | bool b => rfl
  | num n => rfl
  | str s => rfl
  | obj fs => rfl

theorem contentArrayFix_idem (v : Json) : contentArrayFix (contentArrayFix v) = contentArrayFix v := by
  cases v with
  | arr ts =>
    simp only [contentArrayFix, List.map_map]
    rw [show fixContentItem ∘ fixContentItem = fixContentItem from funext fixContentItem_idem]
  | null => rfl
  | bool b => rfl
  | num n => rfl
  | str s => rfl
  | obj fs => rfl

theorem fixMessage_idem (m : Json) : fixMessage (fixMessage m) = fixMessage m := by
  simp only [fixMessage]
  rw [objUpdate_comp]
  rw [show (fun v => contentArrayFix (contentArrayFix v)) = contentArrayFix
    from funext contentArrayFix_idem]

theorem messagesArrayFix_idem (v : Json) :
    messagesArrayFix (messagesArrayFix v) = messagesArrayFix v := by
  cases v with
  | arr ms =>
    simp only [messagesArrayFix, List.map_map]
    rw [show fixMessage ∘ fixMessage = fixMessage from funext fixMessage_idem]
  | null => rfl
  | bool b => rfl
  | num n => rfl
  | str s => rfl
  | obj fs => rfl

theorem toolsStep_idem (j : Json) : toolsStep (toolsStep j) = toolsStep j := by
  simp only [toolsStep]
  rw [objUpdate_comp]
  rw [show (fun v => toolsArrayFix (toolsArrayFix v)) = toolsArrayFix
    from funext toolsArrayFix_idem]

theorem messagesStep_idem (j : Json) : messagesStep (messagesStep j) = messagesStep j := by
  simp only [messagesStep]
  rw [objUpdate_comp]
  rw [show (fun v => messagesArrayFix (messagesArrayFix v)) = messagesArrayFix
    from funext messagesArrayFix_idem]

theorem steps_comm (j : Json) : toolsStep (messagesStep j) = messagesStep (toolsStep j) :=
  objUpdate_comm j "messages" "tools" messagesArrayFix toolsArrayFix (by decide)

/-- Claim C9: the tool-name-prefixing step (the tools and `tool_use`
rewriting of `add_tool_prefix`) is idempotent — running it twice equals
running it once, so a name already carrying the `mcp_` marker is never
double-prefixed (stated directly in the second conjunct) — and brand
sanitization run twice equals brand sanitization run once. -/
theorem c9_idempotence :
    (∀ j, messagesStep (toolsStep (messagesStep (toolsStep j))) = messagesStep (toolsStep j))
    ∧ (∀ t n, ((normalize_cache_control t).get "name").bind Json.asStr = some n →
        strHasPre n TOOL_MARK = true → fixToolItem t = normalize_cache_control t)
    ∧ (∀ s, sanitize_brand_text (sanitize_brand_text s) = sanitize_brand_text s) := by
  refine ⟨fun j => ?_, fun t n hn hpre => ?_, sanitize_brand_text_idem⟩
  · rw [steps_comm (toolsStep j), messagesStep_idem, toolsStep_idem]
  · simp only [fixToolItem, hn]
    rw [if_pos hpre]

/-- Witness for C9: a tool whose name already carries the marker is left
with exactly the cache-control-normalized value. -/
theorem c9_idempotence_witness :
    fixToolItem (Json.obj [("name", Json.str "mcp_search")])
      = normalize_cache_control (Json.obj [("name", Json.str "mcp_search")]) :=
  (c9_idempotence).2.1 (Json.obj [("name", Json.str "mcp_search")]) "mcp_search" rfl (by decide)

/-- Spec-side reading of `inject_metadata_with_order`: the canonical value a
known field key contributes to the reassembled object (the metadata key
always contributes, gaining `user_id` when absent). -/
def specCanonicalField (fs : List (String × Json)) (uid : String) (k : String) :
    Option (String × Json) :=
  if k = "metadata" then
    some ("metadata",
      match assocFind fs "metadata" with
      | some v => injMeta v uid
      | none => Json.obj [("user_id", Json.str uid)])
  else (assocFind fs k).map (fun v => (k, v))

/-- Spec-side reassembly: the `FIELD_ORDER` keys that contribute, in that
order, followed by the unknown keys in their original order. -/
def specReassemble (fs : List (String × Json)) (uid : String) : List (String × Json) :=
  FIELD_ORDER.filterMap (specCanonicalField fs uid)
    ++ fs.filter (fun kv => !(FIELD_ORDER.contains kv.1))

theorem buildCanonical_eq_filterMap (fs : List (String × Json)) (uid : String) :
    ∀ ks : List String, buildCanonical fs uid ks = ks.filterMap (specCanonicalField fs uid) := by
  intro ks
  induction ks with
  | nil => rfl
  | cons k ks ih =>
    by_cases hk : k = "metadata"
    · subst hk
      cases hf : assocFind fs "metadata" with
      | some v => simp [buildCanonical, List.filterMap_cons, specCanonicalField, hf, ih]
      | none => simp [buildCanonical, List.filterMap_cons, specCanonicalField, hf, ih]
    · cases hf : assocFind fs k with
      | some v => simp [buildCanonical, List.filterMap_cons, specCanonicalField, hf, hk, ih]
      | none => simp [buildCanonical, List.filterMap_cons, specCanonicalField, hf, hk, ih]

theorem assocHas_cons (k2 : String) (v : Json) (t : List (String × Json)) (k : String) :
    assocHas ((k2, v) :: t) k = if k2 = k then true else assocHas t k := by
  simp only [assocHas, assocFind]
  by_cases h : k2 = k <;> simp [h]

theorem buildCanonical_has (fs : List (String × Json)) (uid : String) (k : String)
    (hk : (assocFind fs k).isSome = true) :
    ∀ ks : List String, assocHas (buildCanonical fs uid ks) k = true ↔ k ∈ ks := by
  intro ks
  induction ks with
  | nil => simp [buildCanonical, assocHas, assocFind]
  | cons k0 ks ih =>
    have hknot : assocFind fs k ≠ none := by
      intro h
      rw [h] at hk
      simp at hk
    by_cases hk0 : k0 = k
    · subst hk0
      cases hf : assocFind fs k0 with
      | some v => simp [buildCanonical, hf, assocHas_cons]
      | none => exact absurd hf hknot
    · have hstep : ∀ tail : List (String × Json),
          (assocHas tail k = true ↔ k ∈ ks) →
          ∀ v0 : Json, (assocHas ((k0, v0) :: tail) k = true ↔ k ∈ k0 :: ks) := by
        intro tail htail v0
        rw [assocHas_cons, if_neg hk0, htail]
        simp only [List.mem_cons]
        constructor
        · exact Or.inr
        · rintro (h | h)
          · exact absurd h.symm hk0
          · exact h
      cases hf : assocFind fs k0 with
      | some v =>
        simp only [buildCanonical, hf]
        exact hstep _ ih _
      | none =>
        by_cases hmeta : k0 = "metadata"
        · subst hmeta
          simp only [buildCanonical, hf, if_pos rfl]
          exact hstep _ ih _
        · simp only [buildCanonical, hf, if_neg hmeta]
          rw [ih]
          simp only [List.mem_cons]
          constructor
          · exact Or.inr
          · rintro (h | h)
            · exact absurd h.symm hk0
            · exact h

theorem assocHas_append_single (acc : List (String × Json)) (k k' : String) (v : Json) :
    assocHas (acc ++ [(k, v)]) k' = (assocHas acc k' || (k = k' : Bool)) := by
  simp only [assocHas, assocFind_append]
  cases hf : assocFind acc k' with
  | some w => simp
  | none =>
    simp only [Option.isSome_none, Bool.false_or]
    by_cases h : k = k' <;> simp [assocFind, h]

theorem appendUnknowns_eq_filter :
    ∀ (fs acc : List (String × Json)), (fs.map Prod.fst).Nodup →
      appendUnknowns acc fs = acc ++ fs.filter (fun kv => !assocHas acc kv.1) := by
  intro fs
  induction fs with
  | nil =>
    intro acc h
    simp [appendUnknowns]
  | cons kv rest ih =>
    intro acc hnd
    obtain ⟨k, v⟩ := kv
    simp only [List.map_cons, List.nodup_cons] at hnd
    obtain ⟨hk, hnd⟩ := hnd
    by_cases hacc : assocHas acc k = true
    · simp only [appendUnknowns, hacc, if_pos]
      rw [ih acc hnd]
      simp only [List.filter_cons]
      rw [show (!assocHas acc (k, v).1) = false by simp [hacc]]
      simp
    · simp only [appendUnknowns]
      rw [if_neg hacc, ih (acc ++ [(k, v)]) hnd]
      have hcongr : rest.filter (fun kv => !assocHas (acc ++ [(k, v)]) kv.1)
          = rest.filter (fun kv => !assocHas acc kv.1) := by
        apply List.filter_congr
        intro x hx
        rw [assocHas_append_single]
        have hxk : ¬(k = x.1) := by
          intro h
          exact hk (by rw [h]; exact List.mem_map_of_mem Prod.fst hx)
        simp [hxk]
      rw [hcongr]
      simp only [List.filter_cons]
      have hb : (!assocHas acc (k, v).1) = true := by
        simp only [Bool.not_eq_true']
        exact Bool.not_eq_true _ ▸ (by simpa using hacc)
      rw [hb]
      simp

theorem assocFind_isSome_of_mem : ∀ {fs : List (String × Json)} {k : String} {v : Json},
    (k, v) ∈ fs → (assocFind fs k).isSome = true := by
  intro fs
  induction fs with
  | nil => intro k v h; simp at h
  | cons kv t ih =>
    intro k v h
    obtain ⟨k2, w⟩ := kv
    by_cases hk : k2 = k
    · simp [assocFind, hk]
    · rcases List.mem_cons.mp h with h1 | h2
      · injection h1 with e1 e2
        exact absurd e1.symm hk
      · simp only [assocFind, hk, if_neg]
        exact ih h2

theorem inject_eq_spec (fs : List (String × Json)) (uid : String)
    (hnd : (fs.map Prod.fst).Nodup) :
    inject_metadata_with_order (Json.obj fs) uid = some (Json.obj (specReassemble fs uid)) := by
  simp only [inject_metadata_with_order, specReassemble, Option.some.injEq]
  have hfilt : fs.filter (fun kv => !assocHas (buildCanonical fs uid FIELD_ORDER) kv.1)
      = fs.filter (fun kv => !(FIELD_ORDER.contains kv.1)) := by
    apply List.filter_congr
    intro x hx
    have hsome : (assocFind fs x.1).isSome = true := by
      obtain ⟨k, v⟩ := x
      exact assocFind_isSome_of_mem hx
    congr 1
    apply Bool.coe_iff_coe.mp
    rw [buildCanonical_has fs uid x.1 hsome FIELD_ORDER]
    exact (List.elem_iff).symm
  rw [appendUnknowns_eq_filter fs _ hnd, hfilt, buildCanonical_eq_filterMap]

theorem objUpdate_obj_keys (gs : List (String × Json)) (k : String) (f : Json → Json) :
    ∃ gs2, (Json.obj gs).objUpdate k f = Json.obj gs2 ∧ gs2.map Prod.fst = gs.map Prod.fst := by
  simp only [Json.objUpdate]
  cases hf : assocFind gs k with
  | some v => exact ⟨_, rfl, keys_assocSet gs k (f v)⟩
  | none => exact ⟨gs, rfl, rfl⟩

theorem systemStep_obj (fields : List (String × Json)) :
    ∃ fs1, systemStep (Json.obj fields) = some (Json.obj fs1)
      ∧ ((fields.map Prod.fst).Nodup → (fs1.map Prod.fst).Nodup)
      ∧ assocFind fs1 "metadata" = assocFind fields "metadata" := by
  simp only [systemStep]
  cases hf : assocFind fields "system" with
  | some sys =>
    refine ⟨_, rfl, ?_, ?_⟩
    · intro h
      rw [keys_assocSet]
      exact h
    · exact assocFind_set_ne fields "system" "metadata" _ (by decide)
  | none =>
    refine ⟨_, rfl, ?_, ?_⟩
    · intro h
      rw [List.map_append]
      refine List.Nodup.append h (by simp) ?_
      intro a ha hb
      simp only [List.map_cons, List.map_nil, List.mem_singleton] at hb
      subst hb
      have : assocHas fields "system" = true := (assocHas_iff_mem_keys fields "system").mpr ha
      simp [assocHas, hf] at this
    · rw [assocFind_append]
      cases hm : assocFind fields "metadata" with
      | some v => rfl
      | none => simp [assocFind]

theorem add_tool_prefix_obj (fields : List (String × Json)) :
    ∃ pfs, add_tool_prefix_fn (Json.obj fields) = some (Json.obj pfs)
      ∧ ((fields.map Prod.fst).Nodup → (pfs.map Prod.fst).Nodup)
      ∧ assocFind pfs "metadata" = assocFind fields "metadata" := by
  by_cases hhk : modelIsHaiku (Json.obj fields) = true
  · exact ⟨fields, by simp [add_tool_prefix_fn, hhk], fun h => h, rfl⟩
  · obtain ⟨fs1, hs, hnd1, hm1⟩ := systemStep_obj fields
    obtain ⟨fs2, ht, hk2⟩ := objUpdate_obj_keys fs1 "tools" toolsArrayFix
    obtain ⟨fs3, hm3, hk3⟩ := objUpdate_obj_keys fs2 "messages" messagesArrayFix
    have htt : toolsStep (Json.obj fs1) = Json.obj fs2 := ht
    have hmm : messagesStep (Json.obj fs2) = Json.obj fs3 := hm3
    refine ⟨fs3, ?_, ?_, ?_⟩
    · simp only [add_tool_prefix_fn]
      rw [if_neg hhk, hs]
      simp only [Option.map_some']
      rw [htt, hmm]
    · intro h
      rw [hk3, hk2]
      exact hnd1 h
    · have hg : (Json.obj fs3).get "metadata" = (Json.obj fs1).get "metadata" := by
        rw [← hmm, ← htt, messagesStep_get_ne _ _ (by decide), toolsStep_get_ne _ _ (by decide)]
      simp only [Json.get] at hg
      rw [hg, hm1]

theorem hasNonEmptyUserId_congr {j1 j2 : Json} (h : j1.get "metadata" = j2.get "metadata") :
    hasNonEmptyUserId j1 = hasNonEmptyUserId j2 := by
  simp only [hasNonEmptyUserId, h]

/-- Claim C3 (amended): on the Claude branch, a body that already holds a
non-empty string `metadata.user_id` passes through the injection stage
untouched (the outbound body is exactly the `add_tool_prefix` output,
metadata preserved, independent of the user handle and the fresh UUID);
any other object body - including one whose `user_id` is empty or not a
string - is reassembled in canonical field order with
`mkUserId uh (generate_session_uuid f messages)` written into metadata
only when the key `user_id` is absent there (`injMeta` keeps an existing
key, as `c3_counterexample` records). -/
theorem c3_identity_injection (fields : List (String × Json)) (uh f : String)
    (hnd : (fields.map Prod.fst).Nodup) :
    (hasNonEmptyUserId (Json.obj fields) = true →
      ∃ pb, add_tool_prefix_fn (Json.obj fields) = some pb
        ∧ claudeFinalBody uh f (Json.obj fields) = some pb
        ∧ pb.get "metadata" = (Json.obj fields).get "metadata"
        ∧ ∀ uh2 f2, claudeFinalBody uh2 f2 (Json.obj fields)
            = claudeFinalBody uh f (Json.obj fields))
    ∧ (hasNonEmptyUserId (Json.obj fields) = false →
      ∃ pfs, add_tool_prefix_fn (Json.obj fields) = some (Json.obj pfs)
        ∧ claudeFinalBody uh f (Json.obj fields)
            = some (Json.obj (specReassemble pfs
                (mkUserId uh (generate_session_uuid f ((Json.obj pfs).index "messages")))))) := by
  obtain ⟨pfs, hadd, hndp, hmeta⟩ := add_tool_prefix_obj fields
  have hgate : hasNonEmptyUserId (Json.obj pfs) = hasNonEmptyUserId (Json.obj fields) :=
    hasNonEmptyUserId_congr (by simp only [Json.get]; exact hmeta)
  constructor
  · intro hu
    refine ⟨Json.obj pfs, hadd, ?_, ?_, ?_⟩
    · simp only [claudeFinalBody, hadd, Option.map_some']
      rw [if_pos (hgate.trans hu)]
    · simp only [Json.get]
      exact hmeta
    · intro uh2 f2
      simp only [claudeFinalBody, hadd, Option.map_some']
      rw [if_pos (hgate.trans hu), if_pos (hgate.trans hu)]
  · intro hu
    refine ⟨pfs, hadd, ?_⟩
    simp only [claudeFinalBody, hadd, Option.map_some']
    rw [if_neg (by rw [hgate, hu]; simp)]
    rw [inject_eq_spec pfs _ (hndp hnd)]
    simp

/-- Concrete body carrying an empty-string metadata.user_id. -/
def c3Body : Json := Json.obj [("metadata", Json.obj [("user_id", Json.str "")])]

/-- Counterexample to claim C3 as stated: a body whose `metadata.user_id`
is the empty string is NOT injected with the synthesized identity - the
empty string survives to the outbound body. -/
theorem c3_counterexample :
    hasNonEmptyUserId c3Body = false
    ∧ ((claudeFinalBody "h" "f" c3Body).bind
        (fun j => (j.get "metadata").bind (fun m => m.get "user_id"))) = some (Json.str "")
    ∧ ((claudeFinalBody "h" "f" c3Body).bind
        (fun j => (j.get "metadata").bind (fun m => m.get "user_id")))
        ≠ some (Json.str (mkUserId "h" (generate_session_uuid "f" Json.null))) := by
  refine ⟨rfl, rfl, ?_⟩
  intro h
  rw [show ((claudeFinalBody "h" "f" c3Body).bind
      (fun j => (j.get "metadata").bind (fun m => m.get "user_id"))) = some (Json.str "") from rfl] at h
  simp only [Option.some.injEq] at h
  have h2 : ("" : String) = mkUserId "h" (generate_session_uuid "f" Json.null) := by
    injection h
  exact absurd h2 (by decide)

/-- Concrete field list for the C3 witness. -/
def c3wFields : List (String × Json) := [("metadata", Json.obj [("user_id", Json.str "u")])]

/-- Witness for C3 at a body already carrying a non-empty user id. -/
theorem c3_identity_injection_witness :
    (c3wFields.map Prod.fst).Nodup ∧
    ((hasNonEmptyUserId (Json.obj c3wFields) = true →
      ∃ pb, add_tool_prefix_fn (Json.obj c3wFields) = some pb
        ∧ claudeFinalBody "h" "f" (Json.obj c3wFields) = some pb
        ∧ pb.get "metadata" = (Json.obj c3wFields).get "metadata"
        ∧ ∀ uh2 f2, claudeFinalBody uh2 f2 (Json.obj c3wFields)
            = claudeFinalBody "h" "f" (Json.obj c3wFields))
    ∧ (hasNonEmptyUserId (Json.obj c3wFields) = false →
      ∃ pfs, add_tool_prefix_fn (Json.obj c3wFields) = some (Json.obj pfs)
        ∧ claudeFinalBody "h" "f" (Json.obj c3wFields)
            = some (Json.obj (specReassemble pfs
                (mkUserId "h" (generate_session_uuid "f" ((Json.obj pfs).index "messages"))))))) :=
  ⟨by decide, c3_identity_injection c3wFields "h" "f" (by decide)⟩

end Amp
